import Mathlib

/-!
# Game of Life (`src/main.c`): a shallow embedding and its verified properties

The C program keeps one `GameOfLife` record.  The embedding below follows
`src/main.c` function by function:

* C `int` values are mathematical integers and every C operation on them is
  followed by `wrapInt`, the reduction to the 32-bit two's complement range;
* the `char **grid` is a list of rows of cells, a cell being the integer value
  of the stored `char`;
* a `for` loop with a fixed trip count is a fold over the list of its indices;
  the one loop whose trip count is not fixed by its bounds (the grid-line loop
  of `renderGameWorld`) takes a fuel argument and returns `none` when the fuel
  is used up;
* the input file is the list of its characters and `fscanfU` is the `%u`
  conversion of `fscanf` on it.
-/

namespace Life

/-! ## Machine integers -/

/-- The largest `int`. -/
def INT_MAX : Int := 2147483647

/-- The smallest `int`. -/
def INT_MIN : Int := -2147483648

/-- Reduction of a mathematical integer to the range of a 32-bit `int`
(two's complement wrap-around). -/
def wrapInt (x : Int) : Int := (x + 2147483648) % 4294967296 - 2147483648

/-- The C expression `a + b` on `int`. -/
def addInt (a b : Int) : Int := wrapInt (a + b)

/-- The C expression `a - b` on `int`. -/
def subInt (a b : Int) : Int := wrapInt (a - b)

/-- The C expression `a * b` on `int`. -/
def mulInt (a b : Int) : Int := wrapInt (a * b)

/-- The C expression `a / b` on `int` for a non-zero constant `b`: division
truncating toward zero. -/
def divInt (a b : Int) : Int := wrapInt (Int.tdiv a b)

/-- The conversion `(char) v` of an `int` to a (signed, 8-bit) `char`. -/
def toChar (v : Int) : Int := (v + 128) % 256 - 128

/-- A value that fits an `int`. -/
def IsInt (x : Int) : Prop := INT_MIN ≤ x ∧ x ≤ INT_MAX

instance (x : Int) : Decidable (IsInt x) := by
  unfold IsInt; exact inferInstance

/-! ## Data model -/

/-- An `SDL_Color`. -/
structure SDL_Color where
  r : Int
  g : Int
  b : Int
  a : Int
deriving DecidableEq

/-- The `GameOfLife` record of `src/main.c` (lines 12-27).  `grid` holds
`grid_height + 2` rows of `grid_width + 2` cells. -/
structure GameOfLife where
  grid_width : Int
  grid_height : Int
  max_evolution_steps : Int
  grid : List (List Int)
  window_width : Int
  window_height : Int
  grid_cell_size : Int
  evolution_step : Int
  evolution_active : Bool
  grid_background_color : SDL_Color
  grid_line_color : SDL_Color
  grid_live_cell_color : SDL_Color
  grid_dead_cell_color : SDL_Color
deriving DecidableEq

/-- The cell `grid[i][j]`, when row `i` and column `j` exist. -/
def cellAt? (grid : List (List Int)) (i j : Nat) : Option Int :=
  match grid[i]? with
  | some row => row[j]?
  | none => none

/-- The read `grid[i][j]`. -/
def getCell (grid : List (List Int)) (i j : Nat) : Int :=
  (cellAt? grid i j).getD 0

/-- The write `grid[i][j] = v`. -/
def setCell (grid : List (List Int)) (i j : Nat) (v : Int) : List (List Int) :=
  match grid[i]? with
  | some row => grid.set i (row.set j v)
  | none => grid

/-- The grid is allocated as the record says: `grid_height + 2` rows of
`grid_width + 2` cells, both counts being representable `int` values, as
`int h = grid_height + 2` and `int w = grid_width + 2` require. -/
def WellFormed (game : GameOfLife) : Prop :=
  0 ≤ game.grid_height ∧ game.grid_height + 2 ≤ INT_MAX ∧
  0 ≤ game.grid_width ∧ game.grid_width + 2 ≤ INT_MAX ∧
  (game.grid.length : Int) = game.grid_height + 2 ∧
  ∀ row ∈ game.grid, (row.length : Int) = game.grid_width + 2

instance (game : GameOfLife) : Decidable (WellFormed game) := by
  unfold WellFormed; exact inferInstance

/-- Every cell of the grid is 0 or 1. -/
def Binary (grid : List (List Int)) : Prop :=
  ∀ row ∈ grid, ∀ c ∈ row, c = 0 ∨ c = 1

instance (grid : List (List Int)) : Decidable (Binary grid) := by
  unfold Binary; exact inferInstance

/-! ## `evolveToNextGeneration` (lines 134-168) -/

/-- The copy loops of lines 142-144: `prevGen[i][j] = game->grid[i][j]` for
`0 <= i < h`, `0 <= j < w`. -/
def copyGrid (h w : Int) (grid : List (List Int)) : List (List Int) :=
  (List.range h.toNat).map fun i => (List.range w.toNat).map fun j => getCell grid i j

/-- The sum of lines 148-155. -/
def neighbors (prevGen : List (List Int)) (i j : Nat) : Int :=
  getCell prevGen (i - 1) (j - 1)
  + getCell prevGen (i - 1) j
  + getCell prevGen (i - 1) (j + 1)
  + getCell prevGen i (j + 1)
  + getCell prevGen (i + 1) (j + 1)
  + getCell prevGen (i + 1) j
  + getCell prevGen (i + 1) (j - 1)
  + getCell prevGen i (j - 1)

/-- The body of the inner loop, lines 148-164, at cell `(i, j)`. -/
def evolveCell (prevGen grid : List (List Int)) (i j : Nat) : List (List Int) :=
  let n := neighbors prevGen i j
  if getCell grid i j ≠ 0 then
    if n < 2 ∨ n > 3 then setCell grid i j 0 else grid
  else
    if n = 3 then setCell grid i j 1 else grid

/-- The inner loop of line 147: `for (j = 1; j <= grid_width; j++)` in row `i`. -/
def evolveRow (prevGen : List (List Int)) (grid_width : Int) (grid : List (List Int))
    (i : Nat) : List (List Int) :=
  (List.range' 1 grid_width.toNat).foldl (fun g j => evolveCell prevGen g i j) grid

/-- The loops of lines 146-165. -/
def evolveGrid (prevGen : List (List Int)) (grid_height grid_width : Int)
    (grid : List (List Int)) : List (List Int) :=
  (List.range' 1 grid_height.toNat).foldl (evolveRow prevGen grid_width) grid

/-- The function `evolveToNextGeneration` on a non-null `game`. -/
def evolveToNextGeneration (game : GameOfLife) : GameOfLife :=
  let h := addInt game.grid_height 2
  let w := addInt game.grid_width 2
  let prevGen := copyGrid h w game.grid
  { game with
    grid := evolveGrid prevGen game.grid_height game.grid_width game.grid
    evolution_step := addInt game.evolution_step 1 }

/-! ## The input file and `fscanf` -/

/-- The test `isspace(c)` in the C locale: space, `\t`, `\n`, `\v`, `\f`, `\r`. -/
def isSpace (c : Char) : Bool :=
  c.toNat == 32 || (9 ≤ c.toNat && c.toNat ≤ 13)

/-- The test `isdigit(c)`. -/
def isDigit (c : Char) : Bool :=
  48 ≤ c.toNat && c.toNat ≤ 57

/-- The file position after the white space that a conversion skips first. -/
def skipSpace : List Char → List Char
  | [] => []
  | c :: cs => if isSpace c then skipSpace cs else c :: cs

/-- The longest run of decimal digits at the file position (their values, most
significant first) and the file position after it. -/
def takeDigits : List Char → List Nat × List Char
  | [] => ([], [])
  | c :: cs =>
    if isDigit c then ((c.toNat - 48) :: (takeDigits cs).1, (takeDigits cs).2)
    else ([], c :: cs)

/-- The number written by a run of decimal digits. -/
def digitsValue (ds : List Nat) : Nat :=
  ds.foldl (fun acc d => 10 * acc + d) 0

/-- One `%u` conversion of `fscanf` at the file position `file` (C11 7.21.6.2):
white space is skipped, then the input item is the longest prefix of an
optionally signed decimal number.  The result is the value stored through the
`int *` argument, when the conversion succeeds, and the new file position.

* At end of file nothing is converted.
* A sign is part of the input item and is consumed even when no digit follows it
  (the item is then a prefix of a number but not a number, a matching failure):
  only the character that ended the item stays unread.
* Any other character that cannot start a number stays unread.
* The number is stored as an `unsigned` and read back as an `int`: its value
  modulo 2^32 in two's complement (beyond 2^32 the C standard leaves the stored
  value open). -/
def fscanfU (file : List Char) : Option Int × List Char :=
  match skipSpace file with
  | [] => (none, [])
  | c :: cs =>
    let item := if c.toNat = 45 ∨ c.toNat = 43 then cs else c :: cs
    match takeDigits item with
    | ([], _) => (none, item)
    | (d :: ds, rest) =>
      (some (if c.toNat = 45 then wrapInt (-(digitsValue (d :: ds) : Int))
             else wrapInt (digitsValue (d :: ds))), rest)

/-- The call `fscanf(file, "%u %u %u", &a, &b, &c)`: the three stored values when
the call returns 3, `none` when it returns less, and the new file position. -/
def fscanfU3 (file : List Char) : Option (Int × Int × Int) × List Char :=
  match fscanfU file with
  | (none, f1) => (none, f1)
  | (some a, f1) =>
    match fscanfU f1 with
    | (none, f2) => (none, f2)
    | (some b, f2) =>
      match fscanfU f2 with
      | (none, f3) => (none, f3)
      | (some c, f3) => (some (a, b, c), f3)

/-- The function `readColor` (lines 43-53) on a non-null file and colour: the
colour when it returns 1, `none` when it returns 0, and the new file position.
The components are stored into `Uint8` fields. -/
def readColor (file : List Char) : Option SDL_Color × List Char :=
  match fscanfU3 file with
  | (none, f1) => (none, f1)
  | (some (r, g, b), f1) => (some { r := r % 256, g := g % 256, b := b % 256, a := 255 }, f1)

/-! ## `loadGame` (lines 60-128) -/

/-- The rows allocated by lines 79-81: `h` rows of `w` cells.  The content of
fresh memory is not fixed by C; the loops of lines 83-95 assign every cell. -/
def allocGrid (h w : Int) : List (List Int) :=
  List.replicate h.toNat (List.replicate w.toNat 0)

/-- The value of the local `cell` at line 93 for position `(i, j)` and the file
position after lines 87-91.  On the border `cell = 0` and nothing is read.
Elsewhere `fscanf(file, "%u", &cell)` is called and its return value is not
looked at: when nothing is converted `cell` keeps the indeterminate value of an
uninitialised local, given here by `undef i j`. -/
def readCell (undef : Nat → Nat → Int) (h w : Int) (i j : Nat) (file : List Char) :
    Int × List Char :=
  if i = 0 ∨ (i : Int) = subInt h 1 ∨ j = 0 ∨ (j : Int) = subInt w 1 then (0, file)
  else
    match fscanfU file with
    | (some v, f1) => (v, f1)
    | (none, f1) => (undef i j, f1)

/-- The body of the inner loop, lines 85-93. -/
def loadCell (undef : Nat → Nat → Int) (h w : Int) (i : Nat)
    (st : List (List Int) × List Char) (j : Nat) : List (List Int) × List Char :=
  (setCell st.1 i j (toChar (readCell undef h w i j st.2).1), (readCell undef h w i j st.2).2)

/-- The inner loop of line 84: `for (j = 0; j < w; j++)` in row `i`. -/
def loadRow (undef : Nat → Nat → Int) (h w : Int)
    (st : List (List Int) × List Char) (i : Nat) : List (List Int) × List Char :=
  (List.range w.toNat).foldl (loadCell undef h w i) st

/-- The loops of lines 83-95. -/
def loadCells (undef : Nat → Nat → Int) (h w : Int)
    (st : List (List Int) × List Char) : List (List Int) × List Char :=
  (List.range h.toNat).foldl (loadRow undef h w) st

/-- The adjustment of lines 101-102 and 104-105: `size` is raised to
`cells * grid_cell_size + 200` when it is smaller. -/
def adjustWindow (size cells grid_cell_size : Int) : Int :=
  if size < addInt (mulInt cells grid_cell_size) 200 then
    addInt (mulInt cells grid_cell_size) 200
  else size

/-- The function `loadGame`.  The argument is the content of the file, `none`
when `fopen` fails; the result is `none` for the `NULL` return.  The body of
`while (!gameLoaded)` runs once: it either reaches `gameLoaded = 1` or leaves at
a `break`.  Line 108 sets the global `FONT_SIZE`, which is not part of the
record. -/
def loadGame (undef : Nat → Nat → Int) (file : Option (List Char)) : Option GameOfLife :=
  match file with
  | none => none
  | some f0 =>
    match fscanfU3 f0 with
    | (none, _) => none
    | (some (grid_height, grid_width, max_evolution_steps), f1) =>
      let h := addInt grid_height 2
      let w := addInt grid_width 2
      let cells := loadCells undef h w (allocGrid h w, f1)
      match fscanfU3 cells.2 with
      | (none, _) => none
      | (some (window_width, window_height, grid_cell_size), f3) =>
        match readColor f3 with
        | (none, _) => none
        | (some background, f4) =>
          match readColor f4 with
          | (none, _) => none
          | (some line, f5) =>
            match readColor f5 with
            | (none, _) => none
            | (some live, f6) =>
              match readColor f6 with
              | (none, _) => none
              | (some dead, _) =>
                some {
                  grid_width := grid_width
                  grid_height := grid_height
                  max_evolution_steps := max_evolution_steps
                  grid := cells.1
                  window_width := adjustWindow window_width grid_width grid_cell_size
                  window_height := adjustWindow window_height grid_height grid_cell_size
                  grid_cell_size := grid_cell_size
                  evolution_step := 0
                  evolution_active := false
                  grid_background_color := background
                  grid_line_color := line
                  grid_live_cell_color := live
                  grid_dead_cell_color := dead }

/-! ## `quitGame` (lines 283-306) -/

/-- The space character. -/
def space : Char := Char.ofNat 32

/-- The newline character. -/
def newline : Char := Char.ofNat 10

/-- The decimal digits of `n`, most significant first, for `n` of at most `fuel`
digits. -/
def decimalDigits : Nat → Nat → List Nat
  | 0, _ => []
  | fuel + 1, n => if n < 10 then [n] else decimalDigits fuel (n / 10) ++ [n % 10]

/-- The character of a decimal digit. -/
def digitChar (d : Nat) : Char := Char.ofNat (48 + d)

/-- The text of the `%u` conversion of `fprintf` for an `int` argument: the
decimal digits of its value as an `unsigned` (at most ten digits). -/
def printU (v : Int) : List Char :=
  (decimalDigits 10 (v % 4294967296).toNat).map digitChar

/-- The character written by `fputc(c, file)`: `c` converted to `unsigned char`. -/
def fputc (c : Int) : Char := Char.ofNat (c % 256).toNat

/-- The body of the inner loop, lines 292-294, appending to the text `out`. -/
def writeCell (game : GameOfLife) (i : Nat) (out : List Char) (j : Nat) : List Char :=
  if (j : Int) < game.grid_width then
    out ++ [fputc (48 + getCell game.grid i j)] ++ [fputc 32]
  else
    out ++ [fputc (48 + getCell game.grid i j)]

/-- The body of the outer loop, lines 291-296: the cells of row `i`, then a
newline. -/
def writeRow (game : GameOfLife) (out : List Char) (i : Nat) : List Char :=
  (List.range' 1 game.grid_width.toNat).foldl (writeCell game i) out ++ [fputc 10]

/-- The function `quitGame` on a non-null `game`: the text written to the output
file when `saveGame` is set, `none` when nothing is written.  Afterwards the
record is released. -/
def quitGame (game : GameOfLife) (saveGame : Bool) : Option (List Char) :=
  if saveGame then
    some ((List.range' 1 game.grid_height.toNat).foldl (writeRow game)
      (printU game.grid_height ++ [space] ++ printU game.grid_width ++ [newline]))
  else none

/-! ## `renderGameWorld` (lines 212-281) -/

/-- A call to the drawing library. -/
inductive DrawCmd where
  | setDrawColor (color : SDL_Color)
  | renderClear
  | drawText (x y : Int) (text : String) (alignCenter : Bool)
  | renderDrawLine (x1 y1 x2 y2 : Int)
  | renderFillRect (x y w h : Int)
  | renderPresent
deriving DecidableEq

/-- The variable `left` of line 223 (and, for the height, `top` of line 225). -/
def gridStart (window cells cell_size : Int) : Int :=
  subInt (divInt window 2) (divInt (mulInt cells cell_size) 2)

/-- The variable `right` of line 224 (and `bottom` of line 226). -/
def gridEnd (window cells cell_size : Int) : Int :=
  addInt (gridStart window cells cell_size) (mulInt cells cell_size)

/-- The loop `for (int x = start; x <= stop; x += cell_size) draw(x)` of lines
244-245 and 247-248, from the current value `x`: the calls made, or `none` when
`fuel` iterations do not reach the end of the loop. -/
def lineLoop (draw : Int → DrawCmd) (stop cell_size : Int) : Nat → Int → Option (List DrawCmd)
  | 0, _ => none
  | fuel + 1, x =>
    if x ≤ stop then
      (lineLoop draw stop cell_size fuel (addInt x cell_size)).map (fun out => draw x :: out)
    else some []

/-- The calls of the loop of lines 244-245. -/
def verticalLines (fuel : Nat) (game : GameOfLife) : Option (List DrawCmd) :=
  let left := gridStart game.window_width game.grid_width game.grid_cell_size
  let right := gridEnd game.window_width game.grid_width game.grid_cell_size
  let top := gridStart game.window_height game.grid_height game.grid_cell_size
  let bottom := gridEnd game.window_height game.grid_height game.grid_cell_size
  lineLoop (fun x => DrawCmd.renderDrawLine x top x bottom) right game.grid_cell_size fuel left

/-- The calls of the loop of lines 247-248. -/
def horizontalLines (fuel : Nat) (game : GameOfLife) : Option (List DrawCmd) :=
  let left := gridStart game.window_width game.grid_width game.grid_cell_size
  let right := gridEnd game.window_width game.grid_width game.grid_cell_size
  let top := gridStart game.window_height game.grid_height game.grid_cell_size
  let bottom := gridEnd game.window_height game.grid_height game.grid_cell_size
  lineLoop (fun y => DrawCmd.renderDrawLine left y right y) bottom game.grid_cell_size fuel top

/-- The calls of lines 228-240. -/
def statusText (game : GameOfLife) : List DrawCmd :=
  if ¬ game.evolution_active then
    if game.evolution_step < game.max_evolution_steps then
      [DrawCmd.drawText 10 10 "Press any key" false,
       DrawCmd.drawText 10 40 "to START the evolution" false]
    else
      [DrawCmd.drawText 10 10 "Evolution STOPPED" false,
       DrawCmd.drawText 10 40 "Press ESC to QUIT" false]
  else
    [DrawCmd.drawText 10 10 "Evolution STARTED" false]

/-- The calls of one pass of the inner loop, lines 267-275, at cell `(i, j)`. -/
def cellSquare (game : GameOfLife) (i j : Nat) : List DrawCmd :=
  let cell_size := game.grid_cell_size
  let left := gridStart game.window_width game.grid_width cell_size
  let top := gridStart game.window_height game.grid_height cell_size
  [DrawCmd.setDrawColor
     (if getCell game.grid i j ≠ 0 then game.grid_live_cell_color
      else game.grid_dead_cell_color),
   DrawCmd.renderFillRect
     (addInt (addInt left (mulInt (subInt j 1) cell_size)) 1)
     (addInt (addInt top (mulInt (subInt i 1) cell_size)) 1)
     (subInt cell_size 1) (subInt cell_size 1)]

/-- The calls of the loops of lines 262-278. -/
def cellSquares (game : GameOfLife) : List DrawCmd :=
  (List.range' 1 game.grid_height.toNat).foldl
    (fun out i => (List.range' 1 game.grid_width.toNat).foldl
      (fun out j => out ++ cellSquare game i j) out) []

/-- The function `renderGameWorld`: the calls to the drawing library in order, or
`none` when a grid-line loop does not end within `fuel` iterations.  The text
printed for debugging (lines 257, 265, 277) is left out. -/
def renderGameWorld (fuel : Nat) (game : GameOfLife) : Option (List DrawCmd) :=
  match verticalLines fuel game, horizontalLines fuel game with
  | some vertical, some horizontal =>
    let left := gridStart game.window_width game.grid_width game.grid_cell_size
    let right := gridEnd game.window_width game.grid_width game.grid_cell_size
    let bottom := gridEnd game.window_height game.grid_height game.grid_cell_size
    some ([DrawCmd.setDrawColor game.grid_background_color, DrawCmd.renderClear]
      ++ statusText game
      ++ [DrawCmd.setDrawColor game.grid_line_color]
      ++ vertical ++ horizontal
      ++ [DrawCmd.drawText (divInt (addInt left right) 2) (addInt bottom 20)
            ("Evolution step: " ++ toString game.evolution_step) true]
      ++ cellSquares game
      ++ [DrawCmd.renderPresent])
  | _, _ => none

/-- The number of `SDL_RenderFillRect` calls in a list of calls. -/
def countFillRect (out : List DrawCmd) : Nat :=
  out.countP fun c => match c with
    | DrawCmd.renderFillRect _ _ _ _ => true
    | _ => false

/-! ## The event loop of `main` (lines 352-386) -/

/-- The key code `SDLK_ESCAPE`. -/
def SDLK_ESCAPE : Int := 27

/-- What `SDL_PollEvent` delivers in one pass of the loop: no event, or an event
of type `SDL_QUIT`, `SDL_KEYDOWN` (with its key code), `SDL_MOUSEBUTTONDOWN`, or
of a type the `switch` has no case for. -/
inductive Event where
  | noEvent
  | quit
  | keyDown (sym : Int)
  | mouseButtonDown
  | other
deriving DecidableEq

/-- The state of the loop: the record, the flag `quit`, and a count of the
calls of `evolveToNextGeneration` made so far (kept for the statements; the
program has no such variable). -/
structure MainState where
  game : GameOfLife
  quit : Bool
  evolveCalls : Nat
deriving DecidableEq

/-- The `case SDL_MOUSEBUTTONDOWN` of lines 365-370. -/
def onMouseButtonDown (s : MainState) : MainState :=
  if ¬ s.game.evolution_active ∧ s.game.evolution_step < s.game.max_evolution_steps then
    { s with game := { s.game with evolution_active := true } }
  else s

/-- The `switch` of lines 355-371.  The `case SDL_KEYDOWN` has no `break` and
continues into `case SDL_MOUSEBUTTONDOWN`. -/
def handleEvent (s : MainState) : Event → MainState
  | Event.noEvent => s
  | Event.other => s
  | Event.quit => { s with quit := true }
  | Event.keyDown sym =>
    onMouseButtonDown
      (if (¬ s.game.evolution_active ∧ s.game.evolution_step = s.game.max_evolution_steps)
          ∧ sym = SDLK_ESCAPE then { s with quit := true } else s)
  | Event.mouseButtonDown => onMouseButtonDown s

/-- Lines 374-383, where `elapsed` is the outcome of the test
`SDL_GetTicks() - lastRenderTime > 1000`. -/
def timerStep (s : MainState) (elapsed : Bool) : MainState :=
  if s.game.evolution_active ∧ elapsed then
    let game := evolveToNextGeneration s.game
    { s with
      game := if game.evolution_step = game.max_evolution_steps then
                { game with evolution_active := false } else game
      evolveCalls := s.evolveCalls + 1 }
  else s

/-- One pass of the body of `while (!quit)`. -/
def mainIteration (s : MainState) (input : Event × Bool) : MainState :=
  timerStep (handleEvent s input.1) input.2

/-- The loop `while (!quit)` run on the inputs of its successive passes, up to
the end of the list or to the pass that sets `quit`. -/
def mainLoop : MainState → List (Event × Bool) → MainState
  | s, [] => s
  | s, input :: inputs => if s.quit then s else mainLoop (mainIteration s input) inputs

/-- The state in which `main` enters the loop with a loaded record. -/
def initialState (game : GameOfLife) : MainState :=
  { game := game, quit := false, evolveCalls := 0 }

/-! ## Definitions used in the statements -/

/-- The rule of lines 157-164 on a cell of value `c` whose neighbours sum to `n`. -/
def stepCell (c n : Int) : Int :=
  if c ≠ 0 then (if n < 2 ∨ n > 3 then 0 else c) else (if n = 3 then 1 else c)

/-- The eight neighbours of `(i, j)`, for `i, j ≥ 1`. -/
def neighbourPositions (i j : Nat) : List (Nat × Nat) :=
  [(i - 1, j - 1), (i - 1, j), (i - 1, j + 1),
   (i, j - 1), (i, j + 1),
   (i + 1, j - 1), (i + 1, j), (i + 1, j + 1)]

/-- The sum of the eight neighbours of `(i, j)` in `grid`. -/
def neighbourSum (grid : List (List Int)) (i j : Nat) : Int :=
  ((neighbourPositions i j).map fun p => getCell grid p.1 p.2).sum

/-- Conway's rule: the next value of a cell of value `old` with neighbour sum
`n` is 1 exactly when the cell is 1 and `n` is 2 or 3, or the cell is 0 and `n`
is 3. -/
def conwayValue (old n : Int) : Int :=
  if (old = 1 ∧ (n = 2 ∨ n = 3)) ∨ (old = 0 ∧ n = 3) then 1 else 0

/-- Position `(i, j)` is an interior cell of `game`. -/
def Interior (game : GameOfLife) (i j : Nat) : Prop :=
  (1 ≤ i ∧ (i : Int) ≤ game.grid_height) ∧ (1 ≤ j ∧ (j : Int) ≤ game.grid_width)

instance (game : GameOfLife) (i j : Nat) : Decidable (Interior game i j) := by
  unfold Interior; exact inferInstance

/-- Position `(i, j)` is a border cell of `game`: row 0, row `grid_height + 1`,
column 0 or column `grid_width + 1`. -/
def Border (game : GameOfLife) (i j : Nat) : Prop :=
  ((i : Int) ≤ game.grid_height + 1 ∧ (j : Int) ≤ game.grid_width + 1) ∧
  (i = 0 ∨ (i : Int) = game.grid_height + 1 ∨ j = 0 ∨ (j : Int) = game.grid_width + 1)

instance (game : GameOfLife) (i j : Nat) : Decidable (Border game i j) := by
  unfold Border; exact inferInstance

/-- Position `s` is one of the eight neighbours of `(i, j)`. -/
def IsNeighbour (s : Nat × Nat) (i j : Nat) : Prop :=
  (s.1 + 1 = i ∨ s.1 = i ∨ s.1 = i + 1) ∧ (s.2 + 1 = j ∨ s.2 = j ∨ s.2 = j + 1) ∧
  ¬ (s.1 = i ∧ s.2 = j)

instance (s : Nat × Nat) (i j : Nat) : Decidable (IsNeighbour s i j) := by
  unfold IsNeighbour; exact inferInstance

/-- The grid of `game` holds 1 on the positions listed in `live` and 0 on every
other position, border included. -/
def LiveCells (game : GameOfLife) (live : List (Nat × Nat)) : Prop :=
  ∀ i ∈ List.range (game.grid_height + 2).toNat, ∀ j ∈ List.range (game.grid_width + 2).toNat,
    cellAt? game.grid i j = some (if (i, j) ∈ live then 1 else 0)

instance (game : GameOfLife) (live : List (Nat × Nat)) : Decidable (LiveCells game live) := by
  unfold LiveCells; exact inferInstance

/-- The facts kept by every pass of the loop, for the step limit `limit` of the
loaded record. -/
def LoopInvariant (limit : Int) (s : MainState) : Prop :=
  s.game.max_evolution_steps = limit ∧
  0 ≤ s.game.evolution_step ∧ s.game.evolution_step ≤ limit ∧
  (s.game.evolution_active = true → s.game.evolution_step < limit) ∧
  (s.evolveCalls : Int) = s.game.evolution_step

instance (limit : Int) (s : MainState) : Decidable (LoopInvariant limit s) := by
  unfold LoopInvariant; exact inferInstance

/-- The number of `SDL_RenderDrawLine` calls in a list of calls. -/
def countDrawLine (out : List DrawCmd) : Nat :=
  out.countP fun c => match c with
    | DrawCmd.renderDrawLine _ _ _ _ => true
    | _ => false

/-! ## The loops of `loadGame` as a construction of the rows

`buildRows` produces the rows that the loops of lines 83-95 leave in the grid,
cell by cell in the order of the loops.  `loadCells_eq_buildRows` proves that it
is equal to the loops; it is used in the proofs only. -/

/-- The cells of columns `j, j+1, ..., j+n-1` of row `i` in the order they are
assigned, and the file position afterwards. -/
def buildRow (undef : Nat → Nat → Int) (h w : Int) (i : Nat) :
    Nat → Nat → List Char → List Int × List Char
  | 0, _, file => ([], file)
  | n + 1, j, file =>
    (toChar (readCell undef h w i j file).1
        :: (buildRow undef h w i n (j + 1) (readCell undef h w i j file).2).1,
      (buildRow undef h w i n (j + 1) (readCell undef h w i j file).2).2)

/-- The rows `i, i+1, ..., i+n-1` in the order they are assigned, and the file
position afterwards. -/
def buildRows (undef : Nat → Nat → Int) (h w : Int) :
    Nat → Nat → List Char → List (List Int) × List Char
  | 0, _, file => ([], file)
  | n + 1, i, file =>
    ((buildRow undef h w i w.toNat 0 file).1
        :: (buildRows undef h w n (i + 1) (buildRow undef h w i w.toNat 0 file).2).1,
      (buildRows undef h w n (i + 1) (buildRow undef h w i w.toNat 0 file).2).2)

/-! ## The format of the output file and of a configuration file -/

/-- The interior of the grid: rows 1 to `grid_height`, each with its cells of
columns 1 to `grid_width`. -/
def interiorRows (game : GameOfLife) : List (List Int) :=
  (List.range' 1 game.grid_height.toNat).map fun i =>
    (List.range' 1 game.grid_width.toNat).map fun j => getCell game.grid i j

/-- The cells of columns 1 to `grid_width` in row `i`. -/
def rowCells (game : GameOfLife) (i : Nat) : List Int :=
  (List.range' 1 game.grid_width.toNat).map fun j => getCell game.grid i j

/-- A row between its two border cells. -/
def frameRow (row : List Int) : List Int :=
  0 :: row ++ [0]

/-- Every interior cell of the grid is 0 or 1. -/
def InteriorBinary (game : GameOfLife) : Prop :=
  ∀ row ∈ interiorRows game, ∀ c ∈ row, c = 0 ∨ c = 1

instance (game : GameOfLife) : Decidable (InteriorBinary game) := by
  unfold InteriorBinary; exact inferInstance

/-- Words separated by single spaces. -/
def spaceSeparated : List Char → List Char
  | [] => []
  | [c] => [c]
  | c :: d :: cs => c :: space :: spaceSeparated (d :: cs)

/-- A line of the output file: the digits of one row separated by spaces, then a
newline. -/
def digitLine (row : List Int) : List Char :=
  spaceSeparated (row.map fun c => digitChar c.toNat) ++ [newline]

/-- One line of digits for each row. -/
def cellLines (rows : List (List Int)) : List Char :=
  (rows.map digitLine).flatten

/-- The output file in the words of its description: the line `h w`, then one
line of space-separated digits for each row. -/
def outputFormat (h w : Int) (rows : List (List Int)) : List Char :=
  printU h ++ [space] ++ printU w ++ [newline] ++ cellLines rows

/-- A configuration file with the header `h w m`, the cell values of `rows` laid
out as in the output file, and `rest` for the window line and the colours. -/
def configFormat (h w m : Int) (rows : List (List Int)) (rest : List Char) : List Char :=
  printU h ++ [space] ++ printU w ++ [space] ++ printU m ++ [newline] ++ cellLines rows ++ rest

/-- The window line and the four colours can be read from `file`: the call of
line 97 returns 3 and the four calls of `readColor` return 1. -/
def windowAndColoursComplete (file : List Char) : Bool :=
  match fscanfU3 file with
  | (none, _) => false
  | (some _, f3) =>
    match readColor f3 with
    | (none, _) => false
    | (some _, f4) =>
      match readColor f4 with
      | (none, _) => false
      | (some _, f5) =>
        match readColor f5 with
        | (none, _) => false
        | (some _, f6) => (readColor f6).1.isSome

/-- The file position does not start with a digit. -/
def NoDigitAhead (file : List Char) : Prop :=
  ∀ c ∈ file.head?, isDigit c = false

instance (file : List Char) : Decidable (NoDigitAhead file) := by
  unfold NoDigitAhead; exact inferInstance

/-! ## Files that end early -/

/-- No conversion succeeds at this file position or at any later one: after the
white space the file ends, or a character follows that is neither a digit nor a
sign, which every `%u` conversion leaves unread. -/
def Dead (file : List Char) : Prop :=
  match skipSpace file with
  | [] => True
  | c :: _ => isDigit c = false ∧ c.toNat ≠ 45 ∧ c.toNat ≠ 43

instance (file : List Char) : Decidable (Dead file) := by
  unfold Dead
  cases skipSpace file with
  | nil => exact isTrue trivial
  | cons c cs => exact inferInstanceAs (Decidable (isDigit c = false ∧ c.toNat ≠ 45 ∧ c.toNat ≠ 43))

/-- From this file position at most `n` numbers can be read one after the other
before a position is reached where no conversion succeeds any more. -/
def EndsWithin : Nat → List Char → Prop
  | 0, file => Dead file
  | n + 1, file => Dead file ∨ ∃ v rest, fscanfU file = (some v, rest) ∧ EndsWithin n rest

/-- Whether `EndsWithin n file` holds, found by reading the file. -/
def decideEndsWithin : (n : Nat) → (file : List Char) → Decidable (EndsWithin n file)
  | 0, file => inferInstanceAs (Decidable (Dead file))
  | n + 1, file =>
    if hd : Dead file then isTrue (Or.inl hd)
    else
      match hs : fscanfU file with
      | (some v, rest) =>
        match decideEndsWithin n rest with
        | isTrue h => isTrue (Or.inr ⟨v, rest, hs, h⟩)
        | isFalse h => isFalse (by
            rintro (h1 | ⟨v', rest', h1, h2⟩)
            · exact hd h1
            · rw [hs] at h1
              simp only [Prod.mk.injEq, Option.some.injEq] at h1
              rw [← h1.2] at h2
              exact h h2)
      | (none, rest) => isFalse (by
          rintro (h1 | ⟨v', rest', h1, _⟩)
          · exact hd h1
          · rw [hs] at h1
            simp at h1)

instance (n : Nat) (file : List Char) : Decidable (EndsWithin n file) :=
  decideEndsWithin n file

/-- The number of `fscanf` calls made by the loops of lines 83-95 for `h` rows of
`w` cells: one for each cell that is not on the border. -/
def cellReads (h w : Int) : Nat :=
  (h.toNat - 2) * (w.toNat - 2)

/-! ## Sample records and files -/

/-- The colour black, opaque. -/
def black : SDL_Color := { r := 0, g := 0, b := 0, a := 255 }

/-- A record with the given dimensions, step limit and grid, in a 500 x 500
window with cells of size 10, not yet started. -/
def sampleGame (grid_height grid_width max_evolution_steps : Int) (grid : List (List Int)) :
    GameOfLife :=
  { grid_width := grid_width
    grid_height := grid_height
    max_evolution_steps := max_evolution_steps
    grid := grid
    window_width := 500
    window_height := 500
    grid_cell_size := 10
    evolution_step := 0
    evolution_active := false
    grid_background_color := black
    grid_line_color := black
    grid_live_cell_color := black
    grid_dead_cell_color := black }

/-- A horizontal blinker in the middle of a 3 x 3 grid. -/
def blinkerGame : GameOfLife :=
  sampleGame 3 3 10
    [[0, 0, 0, 0, 0],
     [0, 0, 0, 0, 0],
     [0, 1, 1, 1, 0],
     [0, 0, 0, 0, 0],
     [0, 0, 0, 0, 0]]

/-- One live cell in the middle of a 3 x 3 grid, with a step limit of 1. -/
def singleCellGame : GameOfLife :=
  sampleGame 3 3 1
    [[0, 0, 0, 0, 0],
     [0, 0, 0, 0, 0],
     [0, 0, 1, 0, 0],
     [0, 0, 0, 0, 0],
     [0, 0, 0, 0, 0]]

/-- A record whose step counter holds the largest `int`. -/
def lastStepGame : GameOfLife :=
  { singleCellGame with evolution_step := 2147483647 }

/-- The indeterminate values used in the examples: all 0. -/
def zeroUndef : Nat → Nat → Int := fun _ _ => 0

/-- A configuration file: a 3 x 3 grid with one live cell and a step limit of 1,
a window of 100 x 400 for cells of size 10, and four colours. -/
def sampleConfig : List Char :=
  "3 3 1\n0 0 0\n0 1 0\n0 0 0\n100 400 10\n255 255 255\n0 0 0\n0 128 0\n200 200 200\n".toList

/-- The record that `loadGame` returns for `sampleConfig`. -/
def sampleLoaded : GameOfLife :=
  { grid_width := 3
    grid_height := 3
    max_evolution_steps := 1
    grid :=
      [[0, 0, 0, 0, 0],
       [0, 0, 0, 0, 0],
       [0, 0, 1, 0, 0],
       [0, 0, 0, 0, 0],
       [0, 0, 0, 0, 0]]
    window_width := 230
    window_height := 400
    grid_cell_size := 10
    evolution_step := 0
    evolution_active := false
    grid_background_color := { r := 255, g := 255, b := 255, a := 255 }
    grid_line_color := { r := 0, g := 0, b := 0, a := 255 }
    grid_live_cell_color := { r := 0, g := 128, b := 0, a := 255 }
    grid_dead_cell_color := { r := 200, g := 200, b := 200, a := 255 } }

/-- The window line and colours of `sampleConfig`. -/
def sampleRest : List Char :=
  "100 400 10\n255 255 255\n0 0 0\n0 128 0\n200 200 200\n".toList

/-- Passes of the event loop: a key press while the timer has not run out, a pass
without event in which it has, a pass without event, and a press of Escape. -/
def sampleInputs : List (Event × Bool) :=
  [(Event.keyDown 32, false), (Event.noEvent, true), (Event.noEvent, true),
   (Event.keyDown 27, false)]

/-- A configuration file with a 1 x 1 grid and a cell size of 0. -/
def zeroCellConfig : List Char :=
  "1 1 0\n1\n300 300 0\n0 0 0\n0 0 0\n0 0 0\n0 0 0\n".toList

/-- The record that `loadGame` returns for `zeroCellConfig`. -/
def zeroCellLoaded : GameOfLife :=
  { grid_width := 1
    grid_height := 1
    max_evolution_steps := 0
    grid := [[0, 0, 0], [0, 1, 0], [0, 0, 0]]
    window_width := 300
    window_height := 300
    grid_cell_size := 0
    evolution_step := 0
    evolution_active := false
    grid_background_color := black
    grid_line_color := black
    grid_live_cell_color := black
    grid_dead_cell_color := black }

/-- A configuration file whose cell region holds a lone minus sign where the
value of the only cell is expected: 18 numbers for 19 fields. -/
def shortConfig : List Char :=
  "1 1 0\n-\n300 300 10\n0 0 0\n0 0 0\n0 0 0\n0 0 0\n".toList

/-- A configuration file with a lone minus sign in the window line. -/
def shortWindowConfig : List Char :=
  "1 1 0\n1\n300 - 10\n0 0 0\n0 0 0\n0 0 0\n0 0 0\n".toList

/-- The start of `sampleConfig`, cut off inside its second row of cell values. -/
def truncatedConfig : List Char :=
  "3 3 1\n0 0 0\n0 1".toList
/-! ## Machine integers: in-range results -/

theorem wrapInt_eq (x : Int) (h : IsInt x) : wrapInt x = x := by
  unfold IsInt INT_MIN INT_MAX at h
  unfold wrapInt
  omega

theorem isInt_wrapInt (x : Int) : IsInt (wrapInt x) := by
  unfold IsInt INT_MIN INT_MAX wrapInt
  omega

/-! ## Reading and writing cells -/

theorem cellAt?_setCell (grid : List (List Int)) (i j i' j' : Nat) (v : Int) :
    cellAt? (setCell grid i j v) i' j' =
      if i' = i ∧ j' = j then (cellAt? grid i j).map (fun _ => v) else cellAt? grid i' j' := by
  unfold setCell cellAt?
  cases hrow : grid[i]? with
  | none =>
    simp only []
    split_ifs with h
    · obtain ⟨rfl, rfl⟩ := h; simp [hrow]
    · rfl
  | some row =>
    simp only []
    have hi : i < grid.length := by
      by_contra hc
      rw [List.getElem?_eq_none (by omega)] at hrow
      cases hrow
    rw [List.getElem?_set]
    by_cases hii : i = i'
    · subst hii
      simp only [hi, if_true, true_and]
      rw [List.getElem?_set]
      by_cases hjj : j = j'
      · subst hjj
        simp
        by_cases hj : j < row.length
        · simp [hj, List.getElem?_eq_getElem hj]
        · simp [hj, List.getElem?_eq_none (Nat.le_of_not_lt hj)]
      · have : ¬ j' = j := fun h => hjj h.symm
        simp [hjj, this, hrow]
    · have : ¬ i' = i := fun h => hii h.symm
      simp [hii, this]

theorem getCell_of_cellAt? {grid : List (List Int)} {i j : Nat} {c : Int}
    (h : cellAt? grid i j = some c) : getCell grid i j = c := by
  simp [getCell, h]

/-- In a grid of `rows` rows of `cols` cells every position inside holds a cell. -/
theorem cellAt?_of_shape (grid : List (List Int)) (rows cols : Nat)
    (hrows : grid.length = rows) (hcols : ∀ row ∈ grid, row.length = cols)
    (i j : Nat) (hi : i < rows) (hj : j < cols) :
    cellAt? grid i j = some (getCell grid i j) := by
  have hi' : i < grid.length := by omega
  have hrow : grid[i]? = some grid[i] := List.getElem?_eq_getElem hi'
  have hlen : grid[i].length = cols := hcols _ (List.getElem_mem _)
  have hj' : j < grid[i].length := by omega
  have hc : cellAt? grid i j = some (grid[i][j]) := by
    unfold cellAt?
    rw [hrow]
    exact List.getElem?_eq_getElem hj'
  rw [hc, getCell_of_cellAt? hc]

theorem cellAt?_of_wellFormed {game : GameOfLife} (hwf : WellFormed game) (i j : Nat)
    (hi : (i : Int) ≤ game.grid_height + 1) (hj : (j : Int) ≤ game.grid_width + 1) :
    cellAt? game.grid i j = some (getCell game.grid i j) := by
  obtain ⟨h0, _, w0, _, hlen, hrow⟩ := hwf
  apply cellAt?_of_shape game.grid (game.grid_height + 2).toNat (game.grid_width + 2).toNat
  · omega
  · intro row hmem
    have := hrow row hmem
    omega
  · omega
  · omega

theorem mem_of_cellAt? {grid : List (List Int)} {i j : Nat} {c : Int}
    (h : cellAt? grid i j = some c) : ∃ row ∈ grid, c ∈ row := by
  unfold cellAt? at h
  cases hrow : grid[i]? with
  | none => rw [hrow] at h; cases h
  | some row =>
    rw [hrow] at h
    exact ⟨row, List.getElem?_mem hrow, List.getElem?_mem h⟩

theorem binary_of_cellAt? {grid : List (List Int)} (hbin : Binary grid) {i j : Nat} {c : Int}
    (h : cellAt? grid i j = some c) : c = 0 ∨ c = 1 := by
  obtain ⟨row, hrow, hc⟩ := mem_of_cellAt? h
  exact hbin row hrow c hc

/-! ## The loops of `evolveToNextGeneration` -/

theorem cellAt?_copyGrid (h w : Int) (grid : List (List Int)) (i j : Nat)
    (hi : i < h.toNat) (hj : j < w.toNat) :
    cellAt? (copyGrid h w grid) i j = some (getCell grid i j) := by
  unfold copyGrid cellAt?
  simp [List.getElem?_map, List.getElem?_range hi, List.getElem?_range hj]

theorem getCell_copyGrid (h w : Int) (grid : List (List Int)) (i j : Nat)
    (hi : i < h.toNat) (hj : j < w.toNat) :
    getCell (copyGrid h w grid) i j = getCell grid i j :=
  getCell_of_cellAt? (cellAt?_copyGrid h w grid i j hi hj)

theorem neighbors_copyGrid (h w : Int) (grid : List (List Int)) (i j : Nat)
    (hi : i + 1 < h.toNat) (hj : j + 1 < w.toNat) :
    neighbors (copyGrid h w grid) i j = neighbors grid i j := by
  unfold neighbors
  rw [getCell_copyGrid, getCell_copyGrid, getCell_copyGrid, getCell_copyGrid,
    getCell_copyGrid, getCell_copyGrid, getCell_copyGrid, getCell_copyGrid] <;> omega

theorem neighbors_eq_neighbourSum (grid : List (List Int)) (i j : Nat) :
    neighbors grid i j = neighbourSum grid i j := by
  unfold neighbors neighbourSum neighbourPositions
  simp only [List.map_cons, List.map_nil, List.sum_cons, List.sum_nil]
  ring

theorem cellAt?_evolveCell (prevGen grid : List (List Int)) (i j i' j' : Nat) :
    cellAt? (evolveCell prevGen grid i j) i' j' =
      if i' = i ∧ j' = j then
        (cellAt? grid i j).map (fun c => stepCell c (neighbors prevGen i j))
      else cellAt? grid i' j' := by
  unfold evolveCell
  simp only []
  by_cases hij : i' = i ∧ j' = j
  · obtain ⟨rfl, rfl⟩ := hij
    simp only [and_self, if_true]
    cases hc : cellAt? grid i' j' with
    | none =>
      split_ifs <;> simp [cellAt?_setCell, hc]
    | some c =>
      have hg : getCell grid i' j' = c := by simp [getCell, hc]
      rw [hg]
      unfold stepCell
      split_ifs <;> simp_all [cellAt?_setCell]
  · simp only [hij, if_false]
    split_ifs <;> simp [cellAt?_setCell, hij]

theorem cellAt?_foldl_evolveCell (prevGen : List (List Int)) (i : Nat) (js : List Nat)
    (hjs : js.Nodup) (grid : List (List Int)) (i' j' : Nat) :
    cellAt? (js.foldl (fun g j => evolveCell prevGen g i j) grid) i' j' =
      if i' = i ∧ j' ∈ js then
        (cellAt? grid i' j').map (fun c => stepCell c (neighbors prevGen i' j'))
      else cellAt? grid i' j' := by
  induction js generalizing grid with
  | nil => simp
  | cons j js ih =>
    rw [List.nodup_cons] at hjs
    rw [List.foldl_cons, ih hjs.2, cellAt?_evolveCell]
    by_cases hi : i' = i
    · subst hi
      by_cases hj : j' = j
      · subst hj
        simp [hjs.1]
      · simp [hj]
    · simp [hi]

theorem cellAt?_evolveRow (prevGen : List (List Int)) (gw : Int) (grid : List (List Int))
    (i i' j' : Nat) :
    cellAt? (evolveRow prevGen gw grid i) i' j' =
      if i' = i ∧ j' ∈ List.range' 1 gw.toNat then
        (cellAt? grid i' j').map (fun c => stepCell c (neighbors prevGen i' j'))
      else cellAt? grid i' j' :=
  cellAt?_foldl_evolveCell prevGen i _ (List.nodup_range' 1 _) grid i' j'

theorem cellAt?_foldl_evolveRow (prevGen : List (List Int)) (gw : Int) (is : List Nat)
    (his : is.Nodup) (grid : List (List Int)) (i' j' : Nat) :
    cellAt? (is.foldl (evolveRow prevGen gw) grid) i' j' =
      if i' ∈ is ∧ j' ∈ List.range' 1 gw.toNat then
        (cellAt? grid i' j').map (fun c => stepCell c (neighbors prevGen i' j'))
      else cellAt? grid i' j' := by
  induction is generalizing grid with
  | nil => simp
  | cons i is ih =>
    rw [List.nodup_cons] at his
    rw [List.foldl_cons, ih his.2, cellAt?_evolveRow]
    by_cases hi : i' = i
    · subst hi
      simp [his.1]
    · simp [hi]

/-- Every cell after the loops of lines 146-165: an interior cell holds the rule
applied to its old value and to the neighbour sum in `prevGen`; every other cell
is untouched. -/
theorem cellAt?_evolveGrid (prevGen : List (List Int)) (gh gw : Int) (grid : List (List Int))
    (i j : Nat) :
    cellAt? (evolveGrid prevGen gh gw grid) i j =
      if (1 ≤ i ∧ (i : Int) ≤ gh) ∧ (1 ≤ j ∧ (j : Int) ≤ gw) then
        (cellAt? grid i j).map (fun c => stepCell c (neighbors prevGen i j))
      else cellAt? grid i j := by
  unfold evolveGrid
  rw [cellAt?_foldl_evolveRow prevGen gw _ (List.nodup_range' 1 _)]
  have h1 : i ∈ List.range' 1 gh.toNat ↔ (1 ≤ i ∧ (i : Int) ≤ gh) := by
    rw [List.mem_range'_1]; omega
  have h2 : j ∈ List.range' 1 gw.toNat ↔ (1 ≤ j ∧ (j : Int) ≤ gw) := by
    rw [List.mem_range'_1]; omega
  simp only [h1, h2]

theorem stepCell_eq_conwayValue (c n : Int) (hc : c = 0 ∨ c = 1) :
    stepCell c n = conwayValue c n := by
  unfold stepCell conwayValue
  rcases hc with rfl | rfl
  · by_cases h3 : n = 3 <;> simp [h3]
  · by_cases h2 : n = 2
    · subst h2; simp
    · by_cases h3 : n = 3
      · subst h3; simp
      · have : n < 2 ∨ n > 3 := by omega
        simp [h2, h3, this]

/-- The cells of the grid after one call, for a well-formed record: interior
cells follow `stepCell` on the grid before the call, all others are untouched. -/
theorem cellAt?_evolveToNextGeneration (game : GameOfLife) (hwf : WellFormed game)
    (i j : Nat) :
    cellAt? (evolveToNextGeneration game).grid i j =
      if Interior game i j then
        (cellAt? game.grid i j).map (fun c => stepCell c (neighbourSum game.grid i j))
      else cellAt? game.grid i j := by
  unfold evolveToNextGeneration Interior
  simp only []
  rw [cellAt?_evolveGrid]
  split_ifs with hij
  · obtain ⟨h0, hh, w0, hw, _, _⟩ := hwf
    have eh : addInt game.grid_height 2 = game.grid_height + 2 :=
      wrapInt_eq _ (by unfold IsInt INT_MIN; unfold INT_MAX at *; omega)
    have ew : addInt game.grid_width 2 = game.grid_width + 2 :=
      wrapInt_eq _ (by unfold IsInt INT_MIN; unfold INT_MAX at *; omega)
    rw [eh, ew, neighbors_copyGrid _ _ _ _ _ (by omega) (by omega), neighbors_eq_neighbourSum]
  · rfl

/-! ## Neighbour sums of grids given by their list of live cells -/

theorem neighbourSum_eq (grid : List (List Int)) (i j : Nat) :
    neighbourSum grid i j =
      getCell grid (i - 1) (j - 1) + getCell grid (i - 1) j + getCell grid (i - 1) (j + 1)
      + getCell grid i (j - 1) + getCell grid i (j + 1)
      + getCell grid (i + 1) (j - 1) + getCell grid (i + 1) j + getCell grid (i + 1) (j + 1) := by
  unfold neighbourSum neighbourPositions
  simp only [List.map_cons, List.map_nil, List.sum_cons, List.sum_nil]
  ring

theorem mem_neighbourPositions (s : Nat × Nat) (i j : Nat) (hi : 1 ≤ i) (hj : 1 ≤ j) :
    s ∈ neighbourPositions i j ↔ IsNeighbour s i j := by
  obtain ⟨a, b⟩ := s
  unfold neighbourPositions IsNeighbour
  simp only [List.mem_cons, Prod.mk.injEq, List.mem_nil_iff, or_false]
  omega

theorem nodup_neighbourPositions (i j : Nat) (hi : 1 ≤ i) (hj : 1 ≤ j) :
    (neighbourPositions i j).Nodup := by
  unfold neighbourPositions
  simp only [List.nodup_cons, List.mem_cons, Prod.mk.injEq, List.mem_nil_iff, or_false,
    List.nodup_nil, not_false_eq_true, and_true]
  omega

theorem sum_indicator_eq (s : Nat × Nat) (ps : List (Nat × Nat)) (hps : ps.Nodup) :
    (ps.map fun p => if p = s then (1 : Int) else 0).sum = if s ∈ ps then 1 else 0 := by
  induction ps with
  | nil => simp
  | cons p ps ih =>
    rw [List.nodup_cons] at hps
    rw [List.map_cons, List.sum_cons, ih hps.2]
    by_cases hp : p = s
    · subst hp
      simp [hps.1]
    · have hp' : ¬ s = p := fun h => hp h.symm
      simp [hp, hp']

theorem sum_indicator_mem (live ps : List (Nat × Nat)) (hlive : live.Nodup) (hps : ps.Nodup) :
    (ps.map fun p => if p ∈ live then (1 : Int) else 0).sum =
      (live.map fun s => if s ∈ ps then (1 : Int) else 0).sum := by
  induction live with
  | nil => simp
  | cons s live ih =>
    rw [List.nodup_cons] at hlive
    rw [List.map_cons, List.sum_cons, ← ih hlive.2, ← sum_indicator_eq s ps hps,
      ← List.sum_map_add]
    congr 1
    apply List.map_congr_left
    intro p _
    by_cases hp : p = s
    · subst hp
      simp [hlive.1]
    · simp [hp]

/-- In a grid whose cells around `(i, j)` are 1 on the positions of `live` and 0
elsewhere, the neighbour sum of `(i, j)` counts the positions of `live` next to
`(i, j)`. -/
theorem neighbourSum_of_live (grid : List (List Int)) (i j : Nat) (hi : 1 ≤ i) (hj : 1 ≤ j)
    (live : List (Nat × Nat)) (hlive : live.Nodup)
    (hcells : ∀ p ∈ neighbourPositions i j,
      getCell grid p.1 p.2 = if p ∈ live then 1 else 0) :
    neighbourSum grid i j = (live.map fun s => if IsNeighbour s i j then (1 : Int) else 0).sum := by
  have h1 : neighbourSum grid i j =
      ((neighbourPositions i j).map fun p => if p ∈ live then (1 : Int) else 0).sum := by
    unfold neighbourSum
    congr 1
    exact List.map_congr_left hcells
  rw [h1, sum_indicator_mem live _ hlive (nodup_neighbourPositions i j hi hj)]
  congr 1
  apply List.map_congr_left
  intro s _
  simp only [mem_neighbourPositions s i j hi hj]

/-! ## The shape of the grid is kept -/

theorem shape_setCell (grid : List (List Int)) (rows cols : Nat)
    (hrows : grid.length = rows) (hcols : ∀ row ∈ grid, row.length = cols)
    (i j : Nat) (v : Int) :
    (setCell grid i j v).length = rows ∧ ∀ row ∈ setCell grid i j v, row.length = cols := by
  unfold setCell
  cases hrow : grid[i]? with
  | none => exact ⟨hrows, hcols⟩
  | some r =>
    simp only []
    refine ⟨by rw [List.length_set]; exact hrows, ?_⟩
    intro row hmem
    rcases List.mem_or_eq_of_mem_set hmem with h | h
    · exact hcols row h
    · rw [h, List.length_set]
      exact hcols r (List.getElem?_mem hrow)

theorem shape_evolveCell (prevGen grid : List (List Int)) (rows cols : Nat)
    (hrows : grid.length = rows) (hcols : ∀ row ∈ grid, row.length = cols) (i j : Nat) :
    (evolveCell prevGen grid i j).length = rows ∧
      ∀ row ∈ evolveCell prevGen grid i j, row.length = cols := by
  unfold evolveCell
  simp only []
  split_ifs
  · exact shape_setCell grid rows cols hrows hcols i j 0
  · exact ⟨hrows, hcols⟩
  · exact shape_setCell grid rows cols hrows hcols i j 1
  · exact ⟨hrows, hcols⟩

theorem shape_evolveRow (prevGen : List (List Int)) (gw : Int) (rows cols : Nat) (i : Nat)
    (grid : List (List Int))
    (hrows : grid.length = rows) (hcols : ∀ row ∈ grid, row.length = cols) :
    (evolveRow prevGen gw grid i).length = rows ∧
      ∀ row ∈ evolveRow prevGen gw grid i, row.length = cols := by
  unfold evolveRow
  generalize List.range' 1 gw.toNat = js
  induction js generalizing grid with
  | nil => exact ⟨hrows, hcols⟩
  | cons j js ih =>
    rw [List.foldl_cons]
    obtain ⟨h1, h2⟩ := shape_evolveCell prevGen grid rows cols hrows hcols i j
    exact ih _ h1 h2

theorem shape_evolveGrid (prevGen : List (List Int)) (gh gw : Int) (rows cols : Nat)
    (grid : List (List Int))
    (hrows : grid.length = rows) (hcols : ∀ row ∈ grid, row.length = cols) :
    (evolveGrid prevGen gh gw grid).length = rows ∧
      ∀ row ∈ evolveGrid prevGen gh gw grid, row.length = cols := by
  unfold evolveGrid
  generalize List.range' 1 gh.toNat = is
  induction is generalizing grid with
  | nil => exact ⟨hrows, hcols⟩
  | cons i is ih =>
    rw [List.foldl_cons]
    obtain ⟨h1, h2⟩ := shape_evolveRow prevGen gw rows cols i grid hrows hcols
    exact ih _ h1 h2

theorem grid_height_evolveToNextGeneration (game : GameOfLife) :
    (evolveToNextGeneration game).grid_height = game.grid_height := rfl

theorem grid_width_evolveToNextGeneration (game : GameOfLife) :
    (evolveToNextGeneration game).grid_width = game.grid_width := rfl

theorem max_evolution_steps_evolveToNextGeneration (game : GameOfLife) :
    (evolveToNextGeneration game).max_evolution_steps = game.max_evolution_steps := rfl

theorem evolution_step_evolveToNextGeneration (game : GameOfLife) :
    (evolveToNextGeneration game).evolution_step = addInt game.evolution_step 1 := rfl

theorem wellFormed_evolveToNextGeneration (game : GameOfLife) (hwf : WellFormed game) :
    WellFormed (evolveToNextGeneration game) := by
  obtain ⟨h0, hh, w0, hw, hlen, hrow⟩ := hwf
  have hs := shape_evolveGrid
    (copyGrid (addInt game.grid_height 2) (addInt game.grid_width 2) game.grid)
    game.grid_height game.grid_width (game.grid_height + 2).toNat (game.grid_width + 2).toNat
    game.grid (by omega) (by intro row hmem; have := hrow row hmem; omega)
  refine ⟨h0, hh, w0, hw, ?_, ?_⟩
  · show ((evolveGrid _ _ _ _).length : Int) = game.grid_height + 2
    rw [hs.1]; omega
  · intro row hmem
    show (row.length : Int) = game.grid_width + 2
    have := hs.2 row hmem
    omega

/-- Two grids of the same shape with the same cells are the same grid. -/
theorem grid_ext (g1 g2 : List (List Int)) (rows cols : Nat)
    (hrows1 : g1.length = rows) (hcols1 : ∀ row ∈ g1, row.length = cols)
    (hrows2 : g2.length = rows) (hcols2 : ∀ row ∈ g2, row.length = cols)
    (hcell : ∀ i j, i < rows → j < cols → cellAt? g1 i j = cellAt? g2 i j) :
    g1 = g2 := by
  apply List.ext_getElem (by rw [hrows1, hrows2])
  intro i hi1 hi2
  have hl1 : g1[i].length = cols := hcols1 _ (List.getElem_mem _)
  have hl2 : g2[i].length = cols := hcols2 _ (List.getElem_mem _)
  apply List.ext_getElem (by rw [hl1, hl2])
  intro j hj1 hj2
  have h := hcell i j (by omega) (by omega)
  unfold cellAt? at h
  rw [List.getElem?_eq_getElem hi1, List.getElem?_eq_getElem hi2] at h
  simp only [] at h
  rw [List.getElem?_eq_getElem hj1, List.getElem?_eq_getElem hj2] at h
  exact Option.some.inj h

/-! ## Grids given by their live cells -/

theorem liveCells_iff (game : GameOfLife) (live : List (Nat × Nat)) :
    LiveCells game live ↔
      ∀ i j : Nat, (i : Int) ≤ game.grid_height + 1 → (j : Int) ≤ game.grid_width + 1 →
        cellAt? game.grid i j = some (if (i, j) ∈ live then 1 else 0) := by
  unfold LiveCells
  constructor
  · intro h i j hi hj
    exact h i (List.mem_range.2 (by omega)) j (List.mem_range.2 (by omega))
  · intro h i hi j hj
    rw [List.mem_range] at hi hj
    exact h i j (by omega) (by omega)

/-- One call on a grid given by its live cells: the cell at an interior position
becomes `stepCell` of its value and of the number of live cells next to it. -/
theorem cellAt?_evolve_of_live (game : GameOfLife) (hwf : WellFormed game)
    (live : List (Nat × Nat)) (hnodup : live.Nodup) (hlive : LiveCells game live)
    (i j : Nat) (hij : Interior game i j) :
    cellAt? (evolveToNextGeneration game).grid i j =
      some (stepCell (if (i, j) ∈ live then 1 else 0)
        (live.map fun s => if IsNeighbour s i j then (1 : Int) else 0).sum) := by
  rw [liveCells_iff] at hlive
  rw [cellAt?_evolveToNextGeneration game hwf, if_pos hij]
  obtain ⟨⟨hi1, hi2⟩, hj1, hj2⟩ := hij
  rw [hlive i j (by omega) (by omega), Option.map_some']
  rw [neighbourSum_of_live game.grid i j hi1 hj1 live hnodup]
  intro p hp
  rw [mem_neighbourPositions p i j hi1 hj1] at hp
  obtain ⟨h1, h2, _⟩ := hp
  exact getCell_of_cellAt? (hlive p.1 p.2 (by omega) (by omega))

/-! ## The transition rule -/

/-- C1. For a record whose grid is allocated with its dimensions and holds only
0 and 1, one call of `evolveToNextGeneration` leaves in every interior cell
`(i, j)` Conway's value computed from the grid before the call: 1 exactly when
the old cell is 1 and its eight old neighbours sum to 2 or 3, or the old cell is
0 and they sum to 3. -/
theorem evolve_interior_is_conway (game : GameOfLife) (hwf : WellFormed game)
    (hbin : Binary game.grid) (i j : Nat) (hij : Interior game i j) :
    cellAt? (evolveToNextGeneration game).grid i j =
      some (conwayValue (getCell game.grid i j) (neighbourSum game.grid i j)) := by
  rw [cellAt?_evolveToNextGeneration game hwf, if_pos hij]
  obtain ⟨⟨_, hi⟩, _, hj⟩ := hij
  have hc := cellAt?_of_wellFormed hwf i j (by omega) (by omega)
  rw [hc, Option.map_some', stepCell_eq_conwayValue _ _ (binary_of_cellAt? hbin hc)]

theorem evolve_interior_is_conway_witness :
    cellAt? (evolveToNextGeneration blinkerGame).grid 1 2 = some 1 ∧
    cellAt? (evolveToNextGeneration blinkerGame).grid 2 1 = some 0 :=
  ⟨evolve_interior_is_conway blinkerGame (by decide) (by decide) 1 2 (by decide),
   evolve_interior_is_conway blinkerGame (by decide) (by decide) 2 1 (by decide)⟩

/-! ## The step counter -/

theorem iterate_fields (game : GameOfLife) (n : Nat) :
    (evolveToNextGeneration^[n] game).grid_width = game.grid_width ∧
    (evolveToNextGeneration^[n] game).grid_height = game.grid_height ∧
    (evolveToNextGeneration^[n] game).max_evolution_steps = game.max_evolution_steps := by
  induction n with
  | zero => exact ⟨rfl, rfl, rfl⟩
  | succ n ih =>
    rw [Function.iterate_succ_apply']
    exact ih

theorem iterate_evolution_step (game : GameOfLife) (n : Nat)
    (hlo : INT_MIN ≤ game.evolution_step) (hhi : game.evolution_step + n ≤ INT_MAX) :
    (evolveToNextGeneration^[n] game).evolution_step = game.evolution_step + n := by
  induction n with
  | zero => simp
  | succ n ih =>
    rw [Function.iterate_succ_apply', evolution_step_evolveToNextGeneration,
      ih (by push_cast at hhi; omega)]
    unfold addInt
    rw [wrapInt_eq]
    · push_cast; ring
    · unfold IsInt
      unfold INT_MIN at *
      unfold INT_MAX at *
      push_cast at hhi
      omega

/-- C3, as the code has it. At the largest `int` the increment of line 167 has no
representable result: the step counter after the call is not the old one plus 1. -/
theorem evolution_step_overflow :
    (evolveToNextGeneration lastStepGame).evolution_step ≠ lastStepGame.evolution_step + 1 ∧
    (evolveToNextGeneration lastStepGame).evolution_step < lastStepGame.evolution_step := by
  decide

/-- C3, amended. For a record whose step counter is an `int` that `n` increments
do not take past `INT_MAX`, whatever the grid holds, `n` calls of
`evolveToNextGeneration` leave the step counter at its old value plus `n` (one
call adds exactly 1, and the counter does not decrease) and leave `grid_width`,
`grid_height` and `max_evolution_steps` unchanged. -/
theorem evolution_step_after_calls (game : GameOfLife) (n : Nat)
    (hlo : INT_MIN ≤ game.evolution_step) (hhi : game.evolution_step + n ≤ INT_MAX) :
    (evolveToNextGeneration^[n] game).evolution_step = game.evolution_step + n ∧
    game.evolution_step ≤ (evolveToNextGeneration^[n] game).evolution_step ∧
    (evolveToNextGeneration^[n] game).grid_width = game.grid_width ∧
    (evolveToNextGeneration^[n] game).grid_height = game.grid_height ∧
    (evolveToNextGeneration^[n] game).max_evolution_steps = game.max_evolution_steps := by
  have h := iterate_evolution_step game n hlo hhi
  refine ⟨h, ?_, iterate_fields game n⟩
  rw [h]
  omega

theorem evolution_step_after_calls_witness :
    (evolveToNextGeneration^[1] singleCellGame).evolution_step = singleCellGame.evolution_step + (1 : Nat) ∧
    singleCellGame.evolution_step ≤ (evolveToNextGeneration^[1] singleCellGame).evolution_step ∧
    (evolveToNextGeneration^[1] singleCellGame).grid_width = singleCellGame.grid_width ∧
    (evolveToNextGeneration^[1] singleCellGame).grid_height = singleCellGame.grid_height ∧
    (evolveToNextGeneration^[1] singleCellGame).max_evolution_steps =
      singleCellGame.max_evolution_steps :=
  evolution_step_after_calls singleCellGame 1 (by decide) (by decide)

/-! ## Fixtures -/

/-- C9. In a record whose grid is allocated with its dimensions and holds 1 in
exactly one cell `(a, b)` and 0 everywhere else, border included, every interior
cell is 0 after one call of `evolveToNextGeneration`. -/
theorem single_live_cell_dies (game : GameOfLife) (hwf : WellFormed game) (a b : Nat)
    (hlive : LiveCells game [(a, b)])
    (i j : Nat) (hij : Interior game i j) :
    cellAt? (evolveToNextGeneration game).grid i j = some 0 := by
  rw [cellAt?_evolve_of_live game hwf [(a, b)] (by simp) hlive i j hij]
  congr 1
  simp only [List.map_cons, List.map_nil, List.sum_cons, List.sum_nil, List.mem_cons,
    Prod.mk.injEq, List.mem_nil_iff, or_false, IsNeighbour, stepCell]
  split_ifs <;> omega

theorem single_live_cell_dies_witness :
    cellAt? (evolveToNextGeneration singleCellGame).grid 2 2 = some 0 :=
  single_live_cell_dies singleCellGame (by decide) 2 2 (by decide) 2 2 (by decide)

/-- One call on a grid given by its live cells gives the grid of the live cells
`next`, when `next` lists the interior positions where the rule yields 1 and
`live` holds no border position. -/
theorem liveCells_evolve (game : GameOfLife) (hwf : WellFormed game)
    (live next : List (Nat × Nat)) (hnodup : live.Nodup) (hlive : LiveCells game live)
    (hborder : ∀ i j, (i, j) ∈ live ∨ (i, j) ∈ next → Interior game i j)
    (hrule : ∀ i j, Interior game i j →
      stepCell (if (i, j) ∈ live then 1 else 0)
        (live.map fun s => if IsNeighbour s i j then (1 : Int) else 0).sum =
      if (i, j) ∈ next then 1 else 0) :
    LiveCells (evolveToNextGeneration game) next := by
  rw [liveCells_iff]
  intro i j hi hj
  by_cases hij : Interior game i j
  · rw [cellAt?_evolve_of_live game hwf live hnodup hlive i j hij, hrule i j hij]
  · rw [cellAt?_evolveToNextGeneration game hwf, if_neg hij]
    rw [liveCells_iff] at hlive
    rw [hlive i j hi hj]
    have h1 : (i, j) ∉ live := fun h => hij (hborder i j (Or.inl h))
    have h2 : (i, j) ∉ next := fun h => hij (hborder i j (Or.inr h))
    rw [if_neg h1, if_neg h2]

theorem nat_eq_false {a b : Nat} (h : a ≠ b) : (a = b) = False := eq_false h

theorem nat_eq_true {a b : Nat} (h : a = b) : (a = b) = True := eq_true h

/-- The rule on a horizontal blinker centred at `(r, c)`. -/
theorem blinker_rule_horizontal (r c i j : Nat) (hr : 2 ≤ r) (hc : 2 ≤ c) :
    stepCell (if (i, j) ∈ [(r, c - 1), (r, c), (r, c + 1)] then 1 else 0)
        ([(r, c - 1), (r, c), (r, c + 1)].map
          fun s => if IsNeighbour s i j then (1 : Int) else 0).sum =
      if (i, j) ∈ [(r - 1, c), (r, c), (r + 1, c)] then 1 else 0 := by
  simp only [List.map_cons, List.map_nil, List.sum_cons, List.sum_nil, List.mem_cons,
    Prod.mk.injEq, List.mem_nil_iff, or_false, IsNeighbour]
  have hi5 : i + 2 ≤ r ∨ i + 1 = r ∨ i = r ∨ i = r + 1 ∨ r + 2 ≤ i := by omega
  have hj7 : j + 3 ≤ c ∨ j + 2 = c ∨ j + 1 = c ∨ j = c ∨ j = c + 1 ∨ j = c + 2 ∨ c + 3 ≤ j := by
    omega
  rcases hi5 with h | h | h | h | h <;>
    rcases hj7 with h' | h' | h' | h' | h' | h' | h' <;>
      (simp (disch := omega) only [nat_eq_false, nat_eq_true, and_true, true_and, and_false,
        false_and, or_true, true_or, or_false, false_or, not_true_eq_false, not_false_eq_true,
        if_true, if_false, and_self, or_self]; decide)

/-- The rule on a vertical blinker centred at `(r, c)`. -/
theorem blinker_rule_vertical (r c i j : Nat) (hr : 2 ≤ r) (hc : 2 ≤ c) :
    stepCell (if (i, j) ∈ [(r - 1, c), (r, c), (r + 1, c)] then 1 else 0)
        ([(r - 1, c), (r, c), (r + 1, c)].map
          fun s => if IsNeighbour s i j then (1 : Int) else 0).sum =
      if (i, j) ∈ [(r, c - 1), (r, c), (r, c + 1)] then 1 else 0 := by
  simp only [List.map_cons, List.map_nil, List.sum_cons, List.sum_nil, List.mem_cons,
    Prod.mk.injEq, List.mem_nil_iff, or_false, IsNeighbour]
  have hi7 : i + 3 ≤ r ∨ i + 2 = r ∨ i + 1 = r ∨ i = r ∨ i = r + 1 ∨ i = r + 2 ∨ r + 3 ≤ i := by
    omega
  have hj5 : j + 2 ≤ c ∨ j + 1 = c ∨ j = c ∨ j = c + 1 ∨ c + 2 ≤ j := by omega
  rcases hi7 with h | h | h | h | h | h | h <;>
    rcases hj5 with h' | h' | h' | h' | h' <;>
      (simp (disch := omega) only [nat_eq_false, nat_eq_true, and_true, true_and, and_false,
        false_and, or_true, true_or, or_false, false_or, not_true_eq_false, not_false_eq_true,
        if_true, if_false, and_self, or_self]; decide)

/-- C8. In a record whose grid is allocated with its dimensions and whose only
live cells are `(r, c-1)`, `(r, c)`, `(r, c+1)`, with `2 ≤ r ≤ grid_height - 1`
and `2 ≤ c ≤ grid_width - 1`, one call of `evolveToNextGeneration` gives the grid
whose only live cells are `(r-1, c)`, `(r, c)`, `(r+1, c)`, and a second call
gives back the grid before the first. -/
theorem blinker_period_two (game : GameOfLife) (hwf : WellFormed game) (r c : Nat)
    (hr : 2 ≤ r ∧ (r : Int) ≤ game.grid_height - 1)
    (hc : 2 ≤ c ∧ (c : Int) ≤ game.grid_width - 1)
    (hlive : LiveCells game [(r, c - 1), (r, c), (r, c + 1)]) :
    LiveCells (evolveToNextGeneration game) [(r - 1, c), (r, c), (r + 1, c)] ∧
    (evolveToNextGeneration (evolveToNextGeneration game)).grid = game.grid := by
  obtain ⟨hr1, hr2⟩ := hr
  obtain ⟨hc1, hc2⟩ := hc
  have hwf1 := wellFormed_evolveToNextGeneration game hwf
  have hwf2 := wellFormed_evolveToNextGeneration _ hwf1
  have step1 : LiveCells (evolveToNextGeneration game) [(r - 1, c), (r, c), (r + 1, c)] := by
    apply liveCells_evolve game hwf _ _ _ hlive
    · intro i j h
      unfold Interior
      simp only [List.mem_cons, Prod.mk.injEq, List.mem_nil_iff, or_false] at h
      omega
    · intro i j _
      exact blinker_rule_horizontal r c i j hr1 hc1
    · simp only [List.nodup_cons, List.mem_cons, Prod.mk.injEq, List.mem_nil_iff, or_false,
        List.nodup_nil, not_false_eq_true, and_true]
      omega
  have step2 : LiveCells (evolveToNextGeneration (evolveToNextGeneration game))
      [(r, c - 1), (r, c), (r, c + 1)] := by
    apply liveCells_evolve _ hwf1 _ _ _ step1
    · intro i j h
      unfold Interior
      rw [grid_height_evolveToNextGeneration, grid_width_evolveToNextGeneration]
      simp only [List.mem_cons, Prod.mk.injEq, List.mem_nil_iff, or_false] at h
      omega
    · intro i j _
      exact blinker_rule_vertical r c i j hr1 hc1
    · simp only [List.nodup_cons, List.mem_cons, Prod.mk.injEq, List.mem_nil_iff, or_false,
        List.nodup_nil, not_false_eq_true, and_true]
      omega
  refine ⟨step1, ?_⟩
  obtain ⟨h0, _, w0, _, hlen, hrow⟩ := hwf
  obtain ⟨_, _, _, _, hlen2, hrow2⟩ := hwf2
  simp only [grid_height_evolveToNextGeneration, grid_width_evolveToNextGeneration] at hlen2 hrow2
  apply grid_ext _ _ (game.grid_height + 2).toNat (game.grid_width + 2).toNat
  · omega
  · intro row hmem; have := hrow2 row hmem; omega
  · omega
  · intro row hmem; have := hrow row hmem; omega
  · intro i j hi hj
    rw [liveCells_iff] at step2 hlive
    simp only [grid_height_evolveToNextGeneration, grid_width_evolveToNextGeneration] at step2
    rw [step2 i j (by omega) (by omega), hlive i j (by omega) (by omega)]

theorem blinker_period_two_witness :
    LiveCells (evolveToNextGeneration blinkerGame) [(2 - 1, 2), (2, 2), (2 + 1, 2)] ∧
    (evolveToNextGeneration (evolveToNextGeneration blinkerGame)).grid = blinkerGame.grid :=
  blinker_period_two blinkerGame (by decide) 2 2 (by decide) (by decide) (by decide)

/-! ## `loadGame`: the fields of a loaded record -/

theorem isInt_fscanfU {file rest : List Char} {v : Int} (h : fscanfU file = (some v, rest)) :
    IsInt v := by
  unfold fscanfU at h
  split at h
  · cases h
  · simp only [] at h
    split at h
    · cases h
    · simp only [Prod.mk.injEq, Option.some.injEq] at h
      rw [← h.1]
      split_ifs <;> exact isInt_wrapInt _

theorem isInt_fscanfU3 {file rest : List Char} {a b c : Int}
    (h : fscanfU3 file = (some (a, b, c), rest)) : IsInt a ∧ IsInt b ∧ IsInt c := by
  unfold fscanfU3 at h
  split at h
  · cases h
  · rename_i a' f1 h1
    split at h
    · cases h
    · rename_i b' f2 h2
      split at h
      · cases h
      · rename_i c' f3 h3
        simp only [Prod.mk.injEq, Option.some.injEq] at h
        obtain ⟨⟨rfl, rfl, rfl⟩, _⟩ := h
        exact ⟨isInt_fscanfU h1, isInt_fscanfU h2, isInt_fscanfU h3⟩

/-- What a successful `loadGame` has read: the header, the window line and four
colours, with the record built from them. -/
theorem loadGame_eq_some {undef : Nat → Nat → Int} {f0 : List Char} {game : GameOfLife}
    (hload : loadGame undef (some f0) = some game) :
    ∃ gh gw ms f1 ww wh cs f3 background f4 line f5 live f6 dead f7,
      fscanfU3 f0 = (some (gh, gw, ms), f1) ∧
      fscanfU3 (loadCells undef (addInt gh 2) (addInt gw 2)
        (allocGrid (addInt gh 2) (addInt gw 2), f1)).2 = (some (ww, wh, cs), f3) ∧
      readColor f3 = (some background, f4) ∧ readColor f4 = (some line, f5) ∧
      readColor f5 = (some live, f6) ∧ readColor f6 = (some dead, f7) ∧
      game =
        { grid_width := gw
          grid_height := gh
          max_evolution_steps := ms
          grid := (loadCells undef (addInt gh 2) (addInt gw 2)
            (allocGrid (addInt gh 2) (addInt gw 2), f1)).1
          window_width := adjustWindow ww gw cs
          window_height := adjustWindow wh gh cs
          grid_cell_size := cs
          evolution_step := 0
          evolution_active := false
          grid_background_color := background
          grid_line_color := line
          grid_live_cell_color := live
          grid_dead_cell_color := dead } := by
  unfold loadGame at hload
  simp only [] at hload
  split at hload
  · cases hload
  · rename_i gh gw ms f1 h1
    split at hload
    · cases hload
    · rename_i ww wh cs f3 h3
      split at hload
      · cases hload
      · rename_i background f4 h4
        split at hload
        · cases hload
        · rename_i line f5 h5
          split at hload
          · cases hload
          · rename_i live f6 h6
            split at hload
            · cases hload
            · rename_i dead f7 h7
              exact ⟨gh, gw, ms, f1, ww, wh, cs, f3, background, f4, line, f5, live, f6, dead, f7,
                h1, h3, h4, h5, h6, h7, (Option.some.inj hload).symm⟩

theorem adjustWindow_eq_max (size cells cell_size : Int)
    (hlo : INT_MIN ≤ cells * cell_size) (hhi : cells * cell_size + 200 ≤ INT_MAX) :
    adjustWindow size cells cell_size = max size (cells * cell_size + 200) := by
  unfold adjustWindow addInt mulInt
  have e1 : wrapInt (cells * cell_size) = cells * cell_size :=
    wrapInt_eq _ (by unfold IsInt; unfold INT_MAX at *; exact ⟨hlo, by omega⟩)
  have e2 : wrapInt (cells * cell_size + 200) = cells * cell_size + 200 :=
    wrapInt_eq _ (by unfold IsInt; unfold INT_MIN at *; exact ⟨by omega, hhi⟩)
  rw [e1, e2]
  split_ifs with h
  · rw [max_eq_right (le_of_lt h)]
  · rw [max_eq_left (not_lt.1 h)]

/-! ## The loops of `loadGame` build the rows -/

theorem setCell_append (before : List (List Int)) (done todo : List Int) (t : Int)
    (after : List (List Int)) (v : Int) :
    setCell (before ++ (done ++ t :: todo) :: after) before.length done.length v =
      before ++ (done ++ v :: todo) :: after := by
  unfold setCell
  have h1 : (before ++ (done ++ t :: todo) :: after)[before.length]? =
      some (done ++ t :: todo) := by
    rw [List.getElem?_append_right (le_refl _)]
    simp
  rw [h1]
  simp only []
  rw [List.set_append_right _ _ (le_refl _), Nat.sub_self, List.set_cons_zero,
    List.set_append_right _ _ (le_refl _), Nat.sub_self, List.set_cons_zero]

theorem foldl_loadCell (undef : Nat → Nat → Int) (h w : Int) (before after : List (List Int))
    (n : Nat) (done todo : List Int) (htodo : todo.length = n) (file : List Char) :
    (List.range' done.length n).foldl (loadCell undef h w before.length)
        (before ++ (done ++ todo) :: after, file) =
      (before ++ (done ++ (buildRow undef h w before.length n done.length file).1) :: after,
        (buildRow undef h w before.length n done.length file).2) := by
  induction n generalizing done todo file with
  | zero =>
    have : todo = [] := List.eq_nil_of_length_eq_zero htodo
    subst this
    simp [buildRow]
  | succ n ih =>
    match todo, htodo with
    | t :: todo, htodo =>
      have hstep : loadCell undef h w before.length
          (before ++ (done ++ t :: todo) :: after, file) done.length =
          (before ++ (done ++ toChar (readCell undef h w before.length done.length file).1
              :: todo) :: after,
            (readCell undef h w before.length done.length file).2) := by
        unfold loadCell
        simp only []
        rw [setCell_append]
      rw [List.range'_succ, List.foldl_cons, hstep]
      have h1 : done ++ toChar (readCell undef h w before.length done.length file).1 :: todo =
          (done ++ [toChar (readCell undef h w before.length done.length file).1]) ++ todo := by
        simp
      have h2 : done.length + 1 =
          (done ++ [toChar (readCell undef h w before.length done.length file).1]).length := by
        simp
      rw [h1, h2, ih _ todo (by simpa using htodo)]
      simp [buildRow]

theorem loadRow_eq_buildRow (undef : Nat → Nat → Int) (h w : Int)
    (before after : List (List Int)) (row : List Int) (hrow : row.length = w.toNat)
    (file : List Char) :
    loadRow undef h w (before ++ row :: after, file) before.length =
      (before ++ (buildRow undef h w before.length w.toNat 0 file).1 :: after,
        (buildRow undef h w before.length w.toNat 0 file).2) := by
  unfold loadRow
  rw [List.range_eq_range']
  exact foldl_loadCell undef h w before after w.toNat [] row hrow file

theorem foldl_loadRow (undef : Nat → Nat → Int) (h w : Int) (n : Nat)
    (before todo : List (List Int)) (htodo : todo.length = n)
    (hrows : ∀ row ∈ todo, row.length = w.toNat) (file : List Char) :
    (List.range' before.length n).foldl (loadRow undef h w) (before ++ todo, file) =
      (before ++ (buildRows undef h w n before.length file).1,
        (buildRows undef h w n before.length file).2) := by
  induction n generalizing before todo file with
  | zero =>
    have : todo = [] := List.eq_nil_of_length_eq_zero htodo
    subst this
    simp [buildRows]
  | succ n ih =>
    match todo, htodo, hrows with
    | row :: todo, htodo, hrows =>
      rw [List.range'_succ, List.foldl_cons,
        loadRow_eq_buildRow undef h w before todo row (hrows row (List.mem_cons_self _ _))]
      have h1 : before ++ (buildRow undef h w before.length w.toNat 0 file).1 :: todo =
          (before ++ [(buildRow undef h w before.length w.toNat 0 file).1]) ++ todo := by
        simp
      have h2 : before.length + 1 =
          (before ++ [(buildRow undef h w before.length w.toNat 0 file).1]).length := by
        simp
      rw [h1, h2, ih _ todo (by simpa using htodo)
        (fun r hr => hrows r (List.mem_cons_of_mem _ hr))]
      simp [buildRows]

/-- The loops of lines 83-95 on the freshly allocated grid leave the rows that
`buildRows` lists, and the same file position. -/
theorem loadCells_eq_buildRows (undef : Nat → Nat → Int) (h w : Int) (file : List Char) :
    loadCells undef h w (allocGrid h w, file) = buildRows undef h w h.toNat 0 file := by
  unfold loadCells allocGrid
  rw [List.range_eq_range']
  have h := foldl_loadRow undef h w h.toNat [] (List.replicate h.toNat (List.replicate w.toNat 0))
    (List.length_replicate _ _)
    (by intro row hrow; rw [List.eq_of_mem_replicate hrow, List.length_replicate]) file
  simpa using h

/-! ## The grid after `loadGame` -/

theorem length_buildRow (undef : Nat → Nat → Int) (h w : Int) (i n j : Nat) (file : List Char) :
    (buildRow undef h w i n j file).1.length = n := by
  induction n generalizing j file with
  | zero => rfl
  | succ n ih => simp [buildRow, ih]

theorem length_buildRows (undef : Nat → Nat → Int) (h w : Int) (n i : Nat) (file : List Char) :
    (buildRows undef h w n i file).1.length = n := by
  induction n generalizing i file with
  | zero => rfl
  | succ n ih => simp [buildRows, ih]

theorem length_of_mem_buildRows (undef : Nat → Nat → Int) (h w : Int) (n i : Nat)
    (file : List Char) (row : List Int) (hrow : row ∈ (buildRows undef h w n i file).1) :
    row.length = w.toNat := by
  induction n generalizing i file with
  | zero => simp [buildRows] at hrow
  | succ n ih =>
    simp only [buildRows, List.mem_cons] at hrow
    rcases hrow with rfl | hrow
    · exact length_buildRow _ _ _ _ _ _ _
    · exact ih _ _ hrow

/-- Each cell of a built row is the `char` of the value that `readCell` gives at
its column, for the file position reached there. -/
theorem getElem?_buildRow (undef : Nat → Nat → Int) (h w : Int) (i n j : Nat) (file : List Char)
    (k : Nat) (hk : k < n) :
    ∃ file', (buildRow undef h w i n j file).1[k]? =
      some (toChar (readCell undef h w i (j + k) file').1) := by
  induction n generalizing j file k with
  | zero => omega
  | succ n ih =>
    cases k with
    | zero => exact ⟨file, by simp [buildRow]⟩
    | succ k =>
      obtain ⟨file', hf⟩ := ih (j + 1) (readCell undef h w i j file).2 k (by omega)
      refine ⟨file', ?_⟩
      have e : j + (k + 1) = j + 1 + k := by omega
      simp only [buildRow, List.getElem?_cons_succ]
      rw [hf, e]

theorem cellAt?_buildRows (undef : Nat → Nat → Int) (h w : Int) (n i : Nat) (file : List Char)
    (k j : Nat) (hk : k < n) (hj : j < w.toNat) :
    ∃ file', cellAt? (buildRows undef h w n i file).1 k j =
      some (toChar (readCell undef h w (i + k) j file').1) := by
  induction n generalizing i file k with
  | zero => omega
  | succ n ih =>
    cases k with
    | zero =>
      obtain ⟨file', hf⟩ := getElem?_buildRow undef h w i w.toNat 0 file j hj
      refine ⟨file', ?_⟩
      simp only [buildRows, cellAt?, List.getElem?_cons_zero]
      rw [hf]
      simp
    | succ k =>
      obtain ⟨file', hf⟩ := ih (i + 1) (buildRow undef h w i w.toNat 0 file).2 k (by omega)
      refine ⟨file', ?_⟩
      have : cellAt? (buildRows undef h w (n + 1) i file).1 (k + 1) j =
          cellAt? (buildRows undef h w n (i + 1) (buildRow undef h w i w.toNat 0 file).2).1 k j := by
        simp only [buildRows, cellAt?, List.getElem?_cons_succ]
      have e : i + (k + 1) = i + 1 + k := by omega
      rw [this, hf, e]

theorem readCell_border (undef : Nat → Nat → Int) (h w : Int) (i j : Nat) (file : List Char)
    (hb : i = 0 ∨ (i : Int) = subInt h 1 ∨ j = 0 ∨ (j : Int) = subInt w 1) :
    readCell undef h w i j file = (0, file) := by
  unfold readCell
  rw [if_pos hb]

/-- The grid left by the loops of lines 83-95 has `h` rows of `w` cells, and its
cells in row 0, row `h - 1`, column 0 and column `w - 1` are 0. -/
theorem loadCells_grid (undef : Nat → Nat → Int) (h w : Int) (file : List Char) :
    (loadCells undef h w (allocGrid h w, file)).1.length = h.toNat ∧
    (∀ row ∈ (loadCells undef h w (allocGrid h w, file)).1, row.length = w.toNat) ∧
    ∀ i j : Nat, i < h.toNat → j < w.toNat →
      (i = 0 ∨ (i : Int) = subInt h 1 ∨ j = 0 ∨ (j : Int) = subInt w 1) →
      cellAt? (loadCells undef h w (allocGrid h w, file)).1 i j = some 0 := by
  rw [loadCells_eq_buildRows]
  refine ⟨length_buildRows _ _ _ _ _ _, length_of_mem_buildRows _ _ _ _ _ _, ?_⟩
  intro i j hi hj hb
  obtain ⟨file', hf⟩ := cellAt?_buildRows undef h w h.toNat 0 file i j hi hj
  rw [hf, Nat.zero_add, readCell_border undef h w i j file' hb]
  rfl

/-! ## The border -/

theorem cellAt?_evolve_not_interior (game : GameOfLife) (i j : Nat) (h : ¬ Interior game i j) :
    cellAt? (evolveToNextGeneration game).grid i j = cellAt? game.grid i j := by
  unfold Interior at h
  unfold evolveToNextGeneration
  simp only []
  rw [cellAt?_evolveGrid, if_neg h]

theorem not_interior_of_border (game : GameOfLife) (i j : Nat)
    (hb : i = 0 ∨ (i : Int) = game.grid_height + 1 ∨ j = 0 ∨ (j : Int) = game.grid_width + 1) :
    ¬ Interior game i j := by
  unfold Interior
  omega

theorem cellAt?_iterate_border (game : GameOfLife) (n : Nat) (i j : Nat)
    (hb : i = 0 ∨ (i : Int) = game.grid_height + 1 ∨ j = 0 ∨ (j : Int) = game.grid_width + 1) :
    cellAt? (evolveToNextGeneration^[n] game).grid i j = cellAt? game.grid i j := by
  induction n with
  | zero => rfl
  | succ n ih =>
    rw [Function.iterate_succ_apply', cellAt?_evolve_not_interior, ih]
    apply not_interior_of_border
    rw [(iterate_fields game n).2.1, (iterate_fields game n).1]
    exact hb

theorem lt_length_of_cellAt? {grid : List (List Int)} {rows cols : Nat}
    (hrows : grid.length = rows) (hcols : ∀ row ∈ grid, row.length = cols)
    {i j : Nat} {c : Int} (hc : cellAt? grid i j = some c) : i < rows ∧ j < cols := by
  unfold cellAt? at hc
  cases hrow : grid[i]? with
  | none => rw [hrow] at hc; cases hc
  | some row =>
    rw [hrow] at hc
    simp only [] at hc
    obtain ⟨hi, _⟩ := List.getElem?_eq_some.1 hrow
    obtain ⟨hj, _⟩ := List.getElem?_eq_some.1 hc
    have := hcols row (List.getElem?_mem hrow)
    omega

/-- C2. In the grid of a record returned by `loadGame`, right after loading
(`n = 0`) and after any number `n` of calls of `evolveToNextGeneration`, every
cell in row 0, row `grid_height + 1`, column 0 or column `grid_width + 1` is 0;
and when `grid_height + 2` and `grid_width + 2` are representable, so that the
grid is allocated with these dimensions, each of these cells is there. -/
theorem border_is_zero (undef : Nat → Nat → Int) (f0 : List Char) (game : GameOfLife)
    (hload : loadGame undef (some f0) = some game) (n i j : Nat)
    (hb : i = 0 ∨ (i : Int) = game.grid_height + 1 ∨ j = 0 ∨ (j : Int) = game.grid_width + 1) :
    (∀ c, cellAt? (evolveToNextGeneration^[n] game).grid i j = some c → c = 0) ∧
    (game.grid_height + 2 ≤ INT_MAX → game.grid_width + 2 ≤ INT_MAX →
      (i : Int) ≤ game.grid_height + 1 → (j : Int) ≤ game.grid_width + 1 →
      cellAt? (evolveToNextGeneration^[n] game).grid i j = some 0) := by
  rw [cellAt?_iterate_border game n i j hb]
  obtain ⟨gh, gw, ms, f1, ww, wh, cs, f3, c1, f4, c2, f5, c3, f6, c4, f7, h1, -, -, -, -, -, rfl⟩ :=
    loadGame_eq_some hload
  obtain ⟨⟨hgh1, hgh2⟩, ⟨hgw1, hgw2⟩, -⟩ := isInt_fscanfU3 h1
  obtain ⟨hrows, hcols, hzero⟩ := loadCells_grid undef (addInt gh 2) (addInt gw 2) f1
  simp only [] at hb ⊢
  unfold INT_MIN at hgh1 hgw1
  unfold INT_MAX at hgh2 hgw2 ⊢
  have key : ∀ i j : Nat, i < (addInt gh 2).toNat → j < (addInt gw 2).toNat →
      (i = 0 ∨ (i : Int) = gh + 1 ∨ j = 0 ∨ (j : Int) = gw + 1) →
      (i = 0 ∨ (i : Int) = subInt (addInt gh 2) 1 ∨ j = 0 ∨ (j : Int) = subInt (addInt gw 2) 1) := by
    intro i j hi hj hb
    unfold addInt subInt wrapInt at *
    omega
  constructor
  · intro c hc
    obtain ⟨hi, hj⟩ := lt_length_of_cellAt? hrows hcols hc
    rw [hzero i j hi hj (key i j hi hj hb)] at hc
    exact (Option.some.inj hc).symm
  · intro hh hw hi hj
    have hi' : i < (addInt gh 2).toNat := by unfold addInt wrapInt; omega
    have hj' : j < (addInt gw 2).toNat := by unfold addInt wrapInt; omega
    exact hzero i j hi' hj' (key i j hi' hj' hb)

theorem border_is_zero_witness :
    cellAt? (evolveToNextGeneration^[2] sampleLoaded).grid 4 3 = some 0 :=
  (border_is_zero zeroUndef sampleConfig sampleLoaded (by decide!) 2 4 3 (by decide)).2
    (by decide) (by decide) (by decide) (by decide)

/-- C6. For a record returned by `loadGame`, with the header `gh gw ms` and the
window line `ww wh cs` as `fscanf` read them: `grid_height`, `grid_width`,
`max_evolution_steps` and `grid_cell_size` are the values read, `evolution_step`
is 0, `evolution_active` is false, and, when `gw * cs` and `gw * cs + 200` fit an
`int`, `window_width` is the larger of `ww` and `gw * cs + 200`; likewise
`window_height` with `wh` and `gh * cs + 200`. -/
theorem loaded_fields (undef : Nat → Nat → Int) (f0 : List Char) (game : GameOfLife)
    (hload : loadGame undef (some f0) = some game) :
    ∃ gh gw ms f1 ww wh cs f3,
      fscanfU3 f0 = (some (gh, gw, ms), f1) ∧
      fscanfU3 (loadCells undef (addInt gh 2) (addInt gw 2)
        (allocGrid (addInt gh 2) (addInt gw 2), f1)).2 = (some (ww, wh, cs), f3) ∧
      game.grid_height = gh ∧ game.grid_width = gw ∧ game.max_evolution_steps = ms ∧
      game.grid_cell_size = cs ∧ game.evolution_step = 0 ∧ game.evolution_active = false ∧
      (INT_MIN ≤ gw * cs → gw * cs + 200 ≤ INT_MAX →
        game.window_width = max ww (gw * cs + 200)) ∧
      (INT_MIN ≤ gh * cs → gh * cs + 200 ≤ INT_MAX →
        game.window_height = max wh (gh * cs + 200)) := by
  obtain ⟨gh, gw, ms, f1, ww, wh, cs, f3, c1, f4, c2, f5, c3, f6, c4, f7, h1, h3, -, -, -, -, rfl⟩ :=
    loadGame_eq_some hload
  exact ⟨gh, gw, ms, f1, ww, wh, cs, f3, h1, h3, rfl, rfl, rfl, rfl, rfl, rfl,
    adjustWindow_eq_max ww gw cs, adjustWindow_eq_max wh gh cs⟩

theorem loaded_fields_witness :
    ∃ gh gw ms f1 ww wh cs f3,
      fscanfU3 sampleConfig = (some (gh, gw, ms), f1) ∧
      fscanfU3 (loadCells zeroUndef (addInt gh 2) (addInt gw 2)
        (allocGrid (addInt gh 2) (addInt gw 2), f1)).2 = (some (ww, wh, cs), f3) ∧
      sampleLoaded.grid_height = gh ∧ sampleLoaded.grid_width = gw ∧
      sampleLoaded.max_evolution_steps = ms ∧
      sampleLoaded.grid_cell_size = cs ∧ sampleLoaded.evolution_step = 0 ∧
      sampleLoaded.evolution_active = false ∧
      (INT_MIN ≤ gw * cs → gw * cs + 200 ≤ INT_MAX →
        sampleLoaded.window_width = max ww (gw * cs + 200)) ∧
      (INT_MIN ≤ gh * cs → gh * cs + 200 ≤ INT_MAX →
        sampleLoaded.window_height = max wh (gh * cs + 200)) :=
  loaded_fields zeroUndef sampleConfig sampleLoaded (by decide!)

/-! ## The event loop -/

theorem loopInvariant_onMouseButtonDown (limit : Int) (s : MainState)
    (h : LoopInvariant limit s) : LoopInvariant limit (onMouseButtonDown s) := by
  unfold onMouseButtonDown
  split_ifs with hc
  · obtain ⟨h1, h2, h3, _, h5⟩ := h
    refine ⟨h1, h2, h3, ?_, h5⟩
    intro _
    show s.game.evolution_step < limit
    rw [← h1]
    exact hc.2
  · exact h

theorem loopInvariant_handleEvent (limit : Int) (s : MainState) (e : Event)
    (h : LoopInvariant limit s) : LoopInvariant limit (handleEvent s e) := by
  cases e with
  | noEvent => exact h
  | other => exact h
  | quit => exact h
  | mouseButtonDown => exact loopInvariant_onMouseButtonDown limit s h
  | keyDown sym =>
    simp only [handleEvent]
    apply loopInvariant_onMouseButtonDown
    split_ifs
    · exact h
    · exact h

theorem loopInvariant_timerStep (limit : Int) (hlimit : limit ≤ INT_MAX) (s : MainState)
    (elapsed : Bool) (h : LoopInvariant limit s) : LoopInvariant limit (timerStep s elapsed) := by
  unfold timerStep
  split_ifs with hc
  · obtain ⟨h1, h2, h3, h4, h5⟩ := h
    have hlt := h4 hc.1
    have hstep : (evolveToNextGeneration s.game).evolution_step = s.game.evolution_step + 1 := by
      rw [evolution_step_evolveToNextGeneration]
      unfold addInt
      apply wrapInt_eq
      unfold IsInt INT_MIN
      unfold INT_MAX at *
      omega
    simp only []
    split_ifs with heq
    · rw [hstep, max_evolution_steps_evolveToNextGeneration] at heq
      refine ⟨h1, ?_, ?_, ?_, ?_⟩
      · show 0 ≤ (evolveToNextGeneration s.game).evolution_step
        omega
      · show (evolveToNextGeneration s.game).evolution_step ≤ limit
        omega
      · intro hactive
        cases hactive
      · show ((s.evolveCalls + 1 : Nat) : Int) = (evolveToNextGeneration s.game).evolution_step
        push_cast
        omega
    · rw [hstep, max_evolution_steps_evolveToNextGeneration] at heq
      refine ⟨h1, ?_, ?_, ?_, ?_⟩
      · show 0 ≤ (evolveToNextGeneration s.game).evolution_step
        omega
      · show (evolveToNextGeneration s.game).evolution_step ≤ limit
        omega
      · intro _
        show (evolveToNextGeneration s.game).evolution_step < limit
        omega
      · show ((s.evolveCalls + 1 : Nat) : Int) = (evolveToNextGeneration s.game).evolution_step
        push_cast
        omega
  · exact h

theorem loopInvariant_mainLoop (limit : Int) (hlimit : limit ≤ INT_MAX) (s : MainState)
    (inputs : List (Event × Bool)) (h : LoopInvariant limit s) :
    LoopInvariant limit (mainLoop s inputs) := by
  induction inputs generalizing s with
  | nil => exact h
  | cons input inputs ih =>
    unfold mainLoop
    split_ifs
    · exact h
    · apply ih
      unfold mainIteration
      exact loopInvariant_timerStep limit hlimit _ _ (loopInvariant_handleEvent limit _ _ h)

/-- With no step left and the evolution not active, a pass of the loop changes
nothing but the flag `quit`. -/
theorem mainIteration_stopped (s : MainState) (input : Event × Bool)
    (hactive : s.game.evolution_active = false)
    (hstep : s.game.evolution_step = s.game.max_evolution_steps) :
    (mainIteration s input).game = s.game ∧
    (mainIteration s input).evolveCalls = s.evolveCalls := by
  have hmouse : ∀ t : MainState, t.game = s.game → onMouseButtonDown t = t := by
    intro t ht
    unfold onMouseButtonDown
    rw [ht, hstep]
    simp
  have hevent : (handleEvent s input.1).game = s.game ∧
      (handleEvent s input.1).evolveCalls = s.evolveCalls := by
    cases input.1 with
    | noEvent => exact ⟨rfl, rfl⟩
    | other => exact ⟨rfl, rfl⟩
    | quit => exact ⟨rfl, rfl⟩
    | mouseButtonDown =>
      show (onMouseButtonDown s).game = _ ∧ (onMouseButtonDown s).evolveCalls = _
      rw [hmouse s rfl]
      exact ⟨rfl, rfl⟩
    | keyDown sym =>
      simp only [handleEvent]
      split_ifs
      · rw [hmouse { game := s.game, quit := true, evolveCalls := s.evolveCalls } rfl]
        exact ⟨rfl, rfl⟩
      · rw [hmouse s rfl]
        exact ⟨rfl, rfl⟩
  unfold mainIteration timerStep
  rw [hevent.1, hactive]
  simpa using hevent

theorem mainLoop_stopped (s : MainState) (inputs : List (Event × Bool))
    (hactive : s.game.evolution_active = false)
    (hstep : s.game.evolution_step = s.game.max_evolution_steps) :
    (mainLoop s inputs).game = s.game ∧ (mainLoop s inputs).evolveCalls = s.evolveCalls := by
  induction inputs generalizing s with
  | nil => exact ⟨rfl, rfl⟩
  | cons input inputs ih =>
    unfold mainLoop
    split_ifs
    · exact ⟨rfl, rfl⟩
    · obtain ⟨h1, h2⟩ := mainIteration_stopped s input hactive hstep
      obtain ⟨h3, h4⟩ := ih (mainIteration s input) (by rw [h1]; exact hactive)
        (by rw [h1]; exact hstep)
      exact ⟨h3.trans h1, h4.trans h2⟩

/-- C7. From the state in which `main` enters its loop with a record returned by
`loadGame` whose `max_evolution_steps` is not negative, after the passes driven by
any list of events and timer outcomes: `evolution_step` is at most
`max_evolution_steps`, the evolution is active only while `evolution_step` is
below `max_evolution_steps`, `evolveToNextGeneration` has been called
`evolution_step` times, and when `max_evolution_steps` is 0 it has not been
called and the record is the loaded one, so only `quit` can have changed. -/
theorem step_limit_respected (undef : Nat → Nat → Int) (f0 : List Char) (game : GameOfLife)
    (hload : loadGame undef (some f0) = some game) (hmax : 0 ≤ game.max_evolution_steps)
    (inputs : List (Event × Bool)) :
    (mainLoop (initialState game) inputs).game.evolution_step
      ≤ (mainLoop (initialState game) inputs).game.max_evolution_steps ∧
    (mainLoop (initialState game) inputs).game.max_evolution_steps = game.max_evolution_steps ∧
    ((mainLoop (initialState game) inputs).game.evolution_active = true →
      (mainLoop (initialState game) inputs).game.evolution_step
        < (mainLoop (initialState game) inputs).game.max_evolution_steps) ∧
    ((mainLoop (initialState game) inputs).evolveCalls : Int)
      = (mainLoop (initialState game) inputs).game.evolution_step ∧
    (game.max_evolution_steps = 0 →
      (mainLoop (initialState game) inputs).evolveCalls = 0 ∧
      (mainLoop (initialState game) inputs).game = game) := by
  obtain ⟨gh, gw, ms, f1, ww, wh, cs, f3, c1, f4, c2, f5, c3, f6, c4, f7, h1, -, -, -, -, -, hg⟩ :=
    loadGame_eq_some hload
  obtain ⟨-, -, -, hms⟩ := isInt_fscanfU3 h1
  have hstep0 : game.evolution_step = 0 := by rw [hg]
  have hactive0 : game.evolution_active = false := by rw [hg]
  have hlimit : game.max_evolution_steps ≤ INT_MAX := by rw [hg]; exact hms
  have hinit : LoopInvariant game.max_evolution_steps (initialState game) := by
    refine ⟨rfl, ?_, ?_, ?_, ?_⟩
    · show 0 ≤ game.evolution_step
      omega
    · show game.evolution_step ≤ game.max_evolution_steps
      omega
    · intro h
      have : game.evolution_active = true := h
      rw [hactive0] at this
      cases this
    · show ((0 : Nat) : Int) = game.evolution_step
      omega
  obtain ⟨i1, _, i3, i4, i5⟩ :=
    loopInvariant_mainLoop game.max_evolution_steps hlimit _ inputs hinit
  refine ⟨by rw [i1]; exact i3, i1, by rw [i1]; exact i4, i5, ?_⟩
  intro hzero
  have hstop : (initialState game).game.evolution_step =
      (initialState game).game.max_evolution_steps := by
    show game.evolution_step = game.max_evolution_steps
    omega
  obtain ⟨s1, s2⟩ := mainLoop_stopped (initialState game) inputs hactive0 hstop
  exact ⟨s2, s1⟩

theorem step_limit_respected_witness :
    (mainLoop (initialState sampleLoaded) sampleInputs).game.evolution_step
      ≤ (mainLoop (initialState sampleLoaded) sampleInputs).game.max_evolution_steps ∧
    (mainLoop (initialState sampleLoaded) sampleInputs).game.max_evolution_steps
      = sampleLoaded.max_evolution_steps ∧
    ((mainLoop (initialState sampleLoaded) sampleInputs).game.evolution_active = true →
      (mainLoop (initialState sampleLoaded) sampleInputs).game.evolution_step
        < (mainLoop (initialState sampleLoaded) sampleInputs).game.max_evolution_steps) ∧
    ((mainLoop (initialState sampleLoaded) sampleInputs).evolveCalls : Int)
      = (mainLoop (initialState sampleLoaded) sampleInputs).game.evolution_step ∧
    (sampleLoaded.max_evolution_steps = 0 →
      (mainLoop (initialState sampleLoaded) sampleInputs).evolveCalls = 0 ∧
      (mainLoop (initialState sampleLoaded) sampleInputs).game = sampleLoaded) :=
  step_limit_respected zeroUndef sampleConfig sampleLoaded (by decide!) (by decide) sampleInputs

/-! ## `renderGameWorld` -/

/-- A grid-line loop whose variable does not move never ends. -/
theorem lineLoop_stuck (draw : Int → DrawCmd) (stop cell_size x : Int) (hx : x ≤ stop)
    (hsame : addInt x cell_size = x) (fuel : Nat) :
    lineLoop draw stop cell_size fuel x = none := by
  induction fuel with
  | zero => rfl
  | succ fuel ih =>
    unfold lineLoop
    rw [if_pos hx, hsame, ih]
    rfl

/-- A grid-line loop that starts `m` steps of size `cell_size > 0` before `stop`
ends after `m + 1` passes, given fuel for them. -/
theorem lineLoop_length (draw : Int → DrawCmd) (stop cell_size : Int) (hcs : 0 < cell_size)
    (hstop : stop + cell_size ≤ INT_MAX) (m : Nat) (x : Int) (hx : INT_MIN ≤ x)
    (hm : x + m * cell_size = stop) (fuel : Nat) (hfuel : m + 2 ≤ fuel) :
    ∃ out, lineLoop draw stop cell_size fuel x = some out ∧ out.length = m + 1 := by
  induction m generalizing x fuel with
  | zero =>
    have hxs : x = stop := by simpa using hm
    match fuel, hfuel with
    | fuel + 2, _ =>
      have hnext : addInt x cell_size = x + cell_size := by
        apply wrapInt_eq
        unfold IsInt
        unfold INT_MIN at *
        unfold INT_MAX at *
        omega
      refine ⟨[draw x], ?_, rfl⟩
      unfold lineLoop
      rw [if_pos (le_of_eq hxs), hnext]
      unfold lineLoop
      rw [if_neg (by omega)]
      rfl
  | succ m ih =>
    have hpos : 0 ≤ (m : Int) * cell_size := by positivity
    have hm' : x + cell_size + m * cell_size = stop := by
      rw [← hm]; push_cast; ring
    match fuel, hfuel with
    | fuel + 1, hfuel =>
      have hnext : addInt x cell_size = x + cell_size := by
        apply wrapInt_eq
        unfold IsInt
        unfold INT_MIN at *
        unfold INT_MAX at *
        omega
      obtain ⟨out, hout, hlen⟩ := ih (x + cell_size) (by unfold INT_MIN at *; omega) hm' fuel
        (by omega)
      refine ⟨draw x :: out, ?_, by simp [hlen]⟩
      unfold lineLoop
      rw [if_pos (by omega), hnext, hout]
      rfl

/-- The start and the end of the grid on the screen, when the grid with its
margin fits the window. -/
theorem gridStart_gridEnd (window cells cell_size : Int) (hcells : 0 ≤ cells)
    (hcs : 0 < cell_size) (hfit : cells * cell_size + 200 ≤ window) (hwin : window ≤ INT_MAX) :
    INT_MIN ≤ gridStart window cells cell_size ∧
    gridEnd window cells cell_size = gridStart window cells cell_size + cells * cell_size ∧
    gridEnd window cells cell_size ≤ window := by
  have hprod : 0 ≤ cells * cell_size := by positivity
  have e1 : mulInt cells cell_size = cells * cell_size := by
    apply wrapInt_eq
    unfold IsInt INT_MIN
    unfold INT_MAX at *
    omega
  have e2 : divInt window 2 = window / 2 := by
    unfold divInt
    rw [Int.tdiv_eq_ediv (by omega) (by omega)]
    apply wrapInt_eq
    unfold IsInt INT_MIN
    unfold INT_MAX at *
    omega
  have e3 : divInt (cells * cell_size) 2 = cells * cell_size / 2 := by
    unfold divInt
    rw [Int.tdiv_eq_ediv hprod (by omega)]
    apply wrapInt_eq
    unfold IsInt INT_MIN
    unfold INT_MAX at *
    omega
  have e4 : gridStart window cells cell_size = window / 2 - cells * cell_size / 2 := by
    unfold gridStart
    rw [e1, e2, e3]
    apply wrapInt_eq
    unfold IsInt INT_MIN
    unfold INT_MAX at *
    omega
  have e5 : gridEnd window cells cell_size =
      gridStart window cells cell_size + cells * cell_size := by
    unfold gridEnd
    rw [e1, e4]
    apply wrapInt_eq
    unfold IsInt INT_MIN
    unfold INT_MAX at *
    omega
  refine ⟨?_, e5, ?_⟩
  · rw [e4]; unfold INT_MIN; omega
  · rw [e5, e4]; omega

theorem countFillRect_append (a b : List DrawCmd) :
    countFillRect (a ++ b) = countFillRect a + countFillRect b := by
  unfold countFillRect
  exact List.countP_append _ _ _

theorem countDrawLine_append (a b : List DrawCmd) :
    countDrawLine (a ++ b) = countDrawLine a + countDrawLine b := by
  unfold countDrawLine
  exact List.countP_append _ _ _

theorem countFillRect_cellSquare (game : GameOfLife) (i j : Nat) :
    countFillRect (cellSquare game i j) = 1 ∧ countDrawLine (cellSquare game i j) = 0 := by
  constructor <;> rfl

theorem count_foldl_cellSquare (game : GameOfLife) (i : Nat) (js : List Nat)
    (out : List DrawCmd) :
    countFillRect (js.foldl (fun out j => out ++ cellSquare game i j) out) =
      countFillRect out + js.length ∧
    countDrawLine (js.foldl (fun out j => out ++ cellSquare game i j) out) =
      countDrawLine out := by
  induction js generalizing out with
  | nil => exact ⟨rfl, rfl⟩
  | cons j js ih =>
    rw [List.foldl_cons]
    obtain ⟨h1, h2⟩ := ih (out ++ cellSquare game i j)
    rw [h1, h2, countFillRect_append, countDrawLine_append,
      (countFillRect_cellSquare game i j).1, (countFillRect_cellSquare game i j).2]
    simp only [List.length_cons]
    omega

theorem count_foldl_rows (game : GameOfLife) (is js : List Nat) (out : List DrawCmd) :
    countFillRect (is.foldl (fun out i => js.foldl
        (fun out j => out ++ cellSquare game i j) out) out) =
      countFillRect out + is.length * js.length ∧
    countDrawLine (is.foldl (fun out i => js.foldl
        (fun out j => out ++ cellSquare game i j) out) out) = countDrawLine out := by
  induction is generalizing out with
  | nil => simp
  | cons i is ih =>
    rw [List.foldl_cons]
    obtain ⟨h1, h2⟩ := ih (js.foldl (fun out j => out ++ cellSquare game i j) out)
    obtain ⟨h3, h4⟩ := count_foldl_cellSquare game i js out
    rw [h1, h2, h3, h4]
    simp only [List.length_cons]
    constructor
    · ring
    · trivial

theorem count_cellSquares (game : GameOfLife) :
    countFillRect (cellSquares game) = game.grid_height.toNat * game.grid_width.toNat ∧
    countDrawLine (cellSquares game) = 0 := by
  unfold cellSquares
  obtain ⟨h1, h2⟩ := count_foldl_rows game (List.range' 1 game.grid_height.toNat)
    (List.range' 1 game.grid_width.toNat) []
  rw [h1, h2]
  simp [countFillRect, countDrawLine]

theorem count_lineLoop (draw : Int → DrawCmd)
    (hdraw : ∀ x, countDrawLine [draw x] = 1 ∧ countFillRect [draw x] = 0)
    (stop cell_size : Int) (fuel : Nat) (x : Int) (out : List DrawCmd)
    (h : lineLoop draw stop cell_size fuel x = some out) :
    countDrawLine out = out.length ∧ countFillRect out = 0 := by
  induction fuel generalizing x out with
  | zero => cases h
  | succ fuel ih =>
    unfold lineLoop at h
    split_ifs at h
    · cases hrest : lineLoop draw stop cell_size fuel (addInt x cell_size) with
      | none => rw [hrest] at h; cases h
      | some rest =>
        rw [hrest] at h
        obtain ⟨h1, h2⟩ := ih _ rest hrest
        have : out = [draw x] ++ rest := by
          simpa using (Option.some.inj h).symm
        rw [this, countDrawLine_append, countFillRect_append, h1, h2, (hdraw x).1, (hdraw x).2]
        exact ⟨by rw [List.length_append, List.length_singleton], rfl⟩
    · have : out = [] := (Option.some.inj h).symm
      rw [this]
      exact ⟨rfl, rfl⟩

theorem count_statusText (game : GameOfLife) :
    countDrawLine (statusText game) = 0 ∧ countFillRect (statusText game) = 0 := by
  unfold statusText
  split_ifs <;> exact ⟨rfl, rfl⟩

/-- The window of a loaded record holds the grid and its margin, when the
adjustment of lines 101-105 does not overflow. -/
theorem loadGame_window {undef : Nat → Nat → Int} {f0 : List Char} {game : GameOfLife}
    (hload : loadGame undef (some f0) = some game) :
    (INT_MIN ≤ game.grid_width * game.grid_cell_size →
      game.grid_width * game.grid_cell_size + 200 ≤ INT_MAX →
      game.grid_width * game.grid_cell_size + 200 ≤ game.window_width) ∧
    (INT_MIN ≤ game.grid_height * game.grid_cell_size →
      game.grid_height * game.grid_cell_size + 200 ≤ INT_MAX →
      game.grid_height * game.grid_cell_size + 200 ≤ game.window_height) := by
  obtain ⟨gh, gw, ms, f1, ww, wh, cs, f3, c1, f4, c2, f5, c3, f6, c4, f7, -, -, -, -, -, -, rfl⟩ :=
    loadGame_eq_some hload
  constructor
  · intro h1 h2
    show gw * cs + 200 ≤ adjustWindow ww gw cs
    rw [adjustWindow_eq_max ww gw cs h1 h2]
    exact le_max_right _ _
  · intro h1 h2
    show gh * cs + 200 ≤ adjustWindow wh gh cs
    rw [adjustWindow_eq_max wh gh cs h1 h2]
    exact le_max_right _ _

/-- Rendering a record whose cell size is positive, whose dimensions are not
negative and whose grid with its margin fits the window: both grid-line loops
end, with `grid_width + 1` and `grid_height + 1` lines, and one square is drawn
for each of the `grid_width * grid_height` cells. -/
theorem render_counts (game : GameOfLife)
    (hcs : 0 < game.grid_cell_size) (hgw : 0 ≤ game.grid_width) (hgh : 0 ≤ game.grid_height)
    (hfitw : game.grid_width * game.grid_cell_size + 200 ≤ game.window_width)
    (hfith : game.grid_height * game.grid_cell_size + 200 ≤ game.window_height)
    (hwx : game.window_width + game.grid_cell_size ≤ INT_MAX)
    (hhx : game.window_height + game.grid_cell_size ≤ INT_MAX) :
    ∃ fuel vertical horizontal out,
      verticalLines fuel game = some vertical ∧
      horizontalLines fuel game = some horizontal ∧
      renderGameWorld fuel game = some out ∧
      (vertical.length : Int) = game.grid_width + 1 ∧
      (horizontal.length : Int) = game.grid_height + 1 ∧
      (countDrawLine out : Int) = (game.grid_width + 1) + (game.grid_height + 1) ∧
      (countFillRect out : Int) = game.grid_width * game.grid_height := by
  obtain ⟨hl1, hl2, hl3⟩ := gridStart_gridEnd game.window_width game.grid_width
    game.grid_cell_size hgw hcs hfitw (by omega)
  obtain ⟨ht1, ht2, ht3⟩ := gridStart_gridEnd game.window_height game.grid_height
    game.grid_cell_size hgh hcs hfith (by omega)
  let fuel := game.grid_width.toNat + game.grid_height.toNat + 2
  have ew : ((game.grid_width.toNat : Nat) : Int) = game.grid_width := Int.toNat_of_nonneg hgw
  have eh : ((game.grid_height.toNat : Nat) : Int) = game.grid_height := Int.toNat_of_nonneg hgh
  obtain ⟨vertical, hv, hvlen⟩ := lineLoop_length
    (fun x => DrawCmd.renderDrawLine x
      (gridStart game.window_height game.grid_height game.grid_cell_size) x
      (gridEnd game.window_height game.grid_height game.grid_cell_size))
    (gridEnd game.window_width game.grid_width game.grid_cell_size) game.grid_cell_size hcs
    (by omega) game.grid_width.toNat
    (gridStart game.window_width game.grid_width game.grid_cell_size) hl1
    (by rw [ew, hl2]) fuel (by omega)
  obtain ⟨horizontal, hh, hhlen⟩ := lineLoop_length
    (fun y => DrawCmd.renderDrawLine
      (gridStart game.window_width game.grid_width game.grid_cell_size) y
      (gridEnd game.window_width game.grid_width game.grid_cell_size) y)
    (gridEnd game.window_height game.grid_height game.grid_cell_size) game.grid_cell_size hcs
    (by omega) game.grid_height.toNat
    (gridStart game.window_height game.grid_height game.grid_cell_size) ht1
    (by rw [eh, ht2]) fuel (by omega)
  have hv' : verticalLines fuel game = some vertical := hv
  have hh' : horizontalLines fuel game = some horizontal := hh
  obtain ⟨cv1, cv2⟩ := count_lineLoop
    (fun x => DrawCmd.renderDrawLine x
      (gridStart game.window_height game.grid_height game.grid_cell_size) x
      (gridEnd game.window_height game.grid_height game.grid_cell_size))
    (fun x => ⟨rfl, rfl⟩) _ _ _ _ _ hv
  obtain ⟨ch1, ch2⟩ := count_lineLoop
    (fun y => DrawCmd.renderDrawLine
      (gridStart game.window_width game.grid_width game.grid_cell_size) y
      (gridEnd game.window_width game.grid_width game.grid_cell_size) y)
    (fun y => ⟨rfl, rfl⟩) _ _ _ _ _ hh
  obtain ⟨cs1, cs2⟩ := count_statusText game
  obtain ⟨cc1, cc2⟩ := count_cellSquares game
  have hr : renderGameWorld fuel game = some
      ([DrawCmd.setDrawColor game.grid_background_color, DrawCmd.renderClear]
        ++ statusText game
        ++ [DrawCmd.setDrawColor game.grid_line_color]
        ++ vertical ++ horizontal
        ++ [DrawCmd.drawText
              (divInt (addInt (gridStart game.window_width game.grid_width game.grid_cell_size)
                (gridEnd game.window_width game.grid_width game.grid_cell_size)) 2)
              (addInt (gridEnd game.window_height game.grid_height game.grid_cell_size) 20)
              ("Evolution step: " ++ toString game.evolution_step) true]
        ++ cellSquares game
        ++ [DrawCmd.renderPresent]) := by
    unfold renderGameWorld
    rw [hv', hh']
  refine ⟨fuel, vertical, horizontal, _, hv', hh', hr, ?_, ?_, ?_, ?_⟩
  · rw [hvlen]; push_cast; omega
  · rw [hhlen]; push_cast; omega
  · simp only [countDrawLine_append, cv1, ch1, cs1, cc2, hvlen, hhlen]
    simp only [countDrawLine, List.countP_cons, List.countP_nil]
    push_cast
    simp
    omega
  · simp only [countFillRect_append, cv2, ch2, cs2, cc1]
    simp only [countFillRect, List.countP_cons, List.countP_nil]
    push_cast
    rw [ew, eh]
    simp
    ring

/-- C10, as the code has it. `loadGame` accepts a configuration with a cell size
of 0, and for the record it returns `renderGameWorld` does not end, whatever the
fuel: the grid-line loop of lines 244-245 adds 0 to `x` in every pass. -/
theorem render_zero_cell_size_diverges :
    loadGame zeroUndef (some zeroCellConfig) = some zeroCellLoaded ∧
    (∀ fuel, verticalLines fuel zeroCellLoaded = none) ∧
    ∀ fuel, renderGameWorld fuel zeroCellLoaded = none := by
  have hv : ∀ fuel, verticalLines fuel zeroCellLoaded = none := by
    intro fuel
    exact lineLoop_stuck _ _ _ _ (by decide) (by decide) fuel
  refine ⟨by decide!, hv, ?_⟩
  intro fuel
  unfold renderGameWorld
  rw [hv fuel]

/-- C10, amended. For a record returned by `loadGame` whose cell size is positive
and whose dimensions are not negative, when the adjustment of the window in
`loadGame` does not overflow and `window_width + grid_cell_size` and
`window_height + grid_cell_size` fit an `int`: the grid-line loops and the cell
loop of `renderGameWorld` end, and they draw `grid_width + 1` vertical lines,
`grid_height + 1` horizontal lines and `grid_width * grid_height` squares. -/
theorem render_bounded (undef : Nat → Nat → Int) (f0 : List Char) (game : GameOfLife)
    (hload : loadGame undef (some f0) = some game)
    (hcs : 0 < game.grid_cell_size) (hgw : 0 ≤ game.grid_width) (hgh : 0 ≤ game.grid_height)
    (hw : game.grid_width * game.grid_cell_size + 200 ≤ INT_MAX)
    (hh : game.grid_height * game.grid_cell_size + 200 ≤ INT_MAX)
    (hwx : game.window_width + game.grid_cell_size ≤ INT_MAX)
    (hhx : game.window_height + game.grid_cell_size ≤ INT_MAX) :
    ∃ fuel vertical horizontal out,
      verticalLines fuel game = some vertical ∧
      horizontalLines fuel game = some horizontal ∧
      renderGameWorld fuel game = some out ∧
      (vertical.length : Int) = game.grid_width + 1 ∧
      (horizontal.length : Int) = game.grid_height + 1 ∧
      (countDrawLine out : Int) = (game.grid_width + 1) + (game.grid_height + 1) ∧
      (countFillRect out : Int) = game.grid_width * game.grid_height := by
  have hprodw : 0 ≤ game.grid_width * game.grid_cell_size := by positivity
  have hprodh : 0 ≤ game.grid_height * game.grid_cell_size := by positivity
  obtain ⟨hfw, hfh⟩ := loadGame_window hload
  exact render_counts game hcs hgw hgh
    (hfw (by unfold INT_MIN; omega) hw) (hfh (by unfold INT_MIN; omega) hh) hwx hhx

theorem render_bounded_witness :
    ∃ fuel vertical horizontal out,
      verticalLines fuel sampleLoaded = some vertical ∧
      horizontalLines fuel sampleLoaded = some horizontal ∧
      renderGameWorld fuel sampleLoaded = some out ∧
      (vertical.length : Int) = sampleLoaded.grid_width + 1 ∧
      (horizontal.length : Int) = sampleLoaded.grid_height + 1 ∧
      (countDrawLine out : Int) =
        (sampleLoaded.grid_width + 1) + (sampleLoaded.grid_height + 1) ∧
      (countFillRect out : Int) = sampleLoaded.grid_width * sampleLoaded.grid_height :=
  render_bounded zeroUndef sampleConfig sampleLoaded (by decide!) (by decide) (by decide)
    (by decide) (by decide) (by decide) (by decide) (by decide)

/-! ## Scanning printed numbers -/

theorem toNat_digitChar (d : Nat) (hd : d < 10) : (digitChar d).toNat = 48 + d := by
  unfold digitChar
  interval_cases d <;> rfl

theorem isDigit_digitChar (d : Nat) (hd : d < 10) : isDigit (digitChar d) = true := by
  unfold isDigit
  rw [toNat_digitChar d hd]
  simp
  omega

theorem isSpace_digitChar (d : Nat) (hd : d < 10) : isSpace (digitChar d) = false := by
  unfold isSpace
  rw [toNat_digitChar d hd]
  simp
  omega

theorem skipSpace_append (ws file : List Char) (hws : ∀ c ∈ ws, isSpace c = true) :
    skipSpace (ws ++ file) = skipSpace file := by
  induction ws with
  | nil => rfl
  | cons c ws ih =>
    rw [List.cons_append, skipSpace, if_pos (hws c (List.mem_cons_self _ _))]
    exact ih (fun c hc => hws c (List.mem_cons_of_mem _ hc))

theorem fscanfU_append (ws file : List Char) (hws : ∀ c ∈ ws, isSpace c = true) :
    fscanfU (ws ++ file) = fscanfU file := by
  unfold fscanfU
  rw [skipSpace_append ws file hws]

theorem fscanfU3_append (ws file : List Char) (hws : ∀ c ∈ ws, isSpace c = true) :
    fscanfU3 (ws ++ file) = fscanfU3 file := by
  unfold fscanfU3
  rw [fscanfU_append ws file hws]

theorem takeDigits_digits (ds : List Nat) (hds : ∀ d ∈ ds, d < 10) (file : List Char)
    (hfile : NoDigitAhead file) :
    takeDigits (ds.map digitChar ++ file) = (ds, file) := by
  induction ds with
  | nil =>
    cases file with
    | nil => rfl
    | cons c cs =>
      have : isDigit c = false := hfile c (by simp)
      simp [takeDigits, this]
  | cons d ds ih =>
    have hd : d < 10 := hds d (List.mem_cons_self _ _)
    have ih' := ih (fun d hd => hds d (List.mem_cons_of_mem _ hd))
    rw [List.map_cons, List.cons_append, takeDigits, if_pos (isDigit_digitChar d hd), ih',
      toNat_digitChar d hd]
    simp

theorem digitsValue_append (ds : List Nat) (d : Nat) :
    digitsValue (ds ++ [d]) = 10 * digitsValue ds + d := by
  unfold digitsValue
  rw [List.foldl_append]
  rfl

theorem decimalDigits_spec (fuel n : Nat) (hn : n < 10 ^ (fuel + 1)) :
    (∀ d ∈ decimalDigits (fuel + 1) n, d < 10) ∧ decimalDigits (fuel + 1) n ≠ [] ∧
    digitsValue (decimalDigits (fuel + 1) n) = n := by
  induction fuel generalizing n with
  | zero =>
    have h : n < 10 := by simpa using hn
    unfold decimalDigits
    rw [if_pos h]
    refine ⟨?_, by simp, ?_⟩
    · intro d hd
      rw [List.mem_singleton] at hd
      omega
    · simp [digitsValue]
  | succ fuel ih =>
    unfold decimalDigits
    split_ifs with h
    · refine ⟨?_, by simp, ?_⟩
      · intro d hd
        rw [List.mem_singleton] at hd
        omega
      · simp [digitsValue]
    · have hlt : n / 10 < 10 ^ (fuel + 1) := by
        rw [Nat.div_lt_iff_lt_mul (by omega)]
        rw [pow_succ] at hn
        exact hn
      obtain ⟨h1, h2, h3⟩ := ih (n / 10) hlt
      refine ⟨?_, by simp, ?_⟩
      · intro d hd
        rw [List.mem_append, List.mem_singleton] at hd
        rcases hd with hd | hd
        · exact h1 d hd
        · omega
      · rw [digitsValue_append, h3]
        omega

/-- Reading back a number written with `%u`: after any white space, the
conversion yields the number and stops right behind its digits. -/
theorem fscanfU_printU (ws : List Char) (hws : ∀ c ∈ ws, isSpace c = true) (v : Int)
    (hv : IsInt v) (file : List Char) (hfile : NoDigitAhead file) :
    fscanfU (ws ++ printU v ++ file) = (some v, file) := by
  rw [List.append_assoc, fscanfU_append ws _ hws]
  unfold printU
  have hlt : (v % 4294967296).toNat < 10 ^ (9 + 1) := by
    have : (10 : Nat) ^ (9 + 1) = 10000000000 := by norm_num
    rw [this]
    omega
  obtain ⟨h1, h2, h3⟩ := decimalDigits_spec 9 _ hlt
  generalize hds : decimalDigits 10 (v % 4294967296).toNat = ds at h1 h2 h3
  match ds, h2 with
  | d :: ds, _ =>
    have hd : d < 10 := h1 d (List.mem_cons_self _ _)
    have htake := takeDigits_digits (d :: ds) h1 file hfile
    unfold fscanfU
    rw [List.map_cons, List.cons_append, skipSpace, if_neg (by rw [isSpace_digitChar d hd]; simp)]
    simp only []
    have hsign : ¬ ((digitChar d).toNat = 45 ∨ (digitChar d).toNat = 43) := by
      rw [toNat_digitChar d hd]; omega
    have hminus : ¬ (digitChar d).toNat = 45 := fun h => hsign (Or.inl h)
    rw [if_neg hsign]
    rw [List.map_cons, List.cons_append] at htake
    have hval : wrapInt ((digitsValue (d :: ds) : Nat) : Int) = v := by
      rw [h3]
      unfold IsInt INT_MIN INT_MAX at hv
      unfold wrapInt
      omega
    rw [htake]
    simp only [if_neg hminus, hval]

/-! ## The text written by `quitGame` -/

theorem foldl_writeCell (game : GameOfLife) (i : Nat) (n s : Nat)
    (hs : ((s + n : Nat) : Int) = game.grid_width + 1) (out : List Char) :
    (List.range' s n).foldl (writeCell game i) out =
      out ++ spaceSeparated ((List.range' s n).map
        fun j => fputc (48 + getCell game.grid i j)) := by
  induction n generalizing s out with
  | zero => simp [spaceSeparated]
  | succ n ih =>
    rw [List.range'_succ, List.foldl_cons, ih (s + 1) (by rw [← hs]; push_cast; ring)]
    cases n with
    | zero =>
      have : ¬ ((s : Int) < game.grid_width) := by push_cast at hs; omega
      simp [writeCell, this, spaceSeparated]
    | succ n =>
      have : (s : Int) < game.grid_width := by push_cast at hs; omega
      rw [List.range'_succ]
      simp only [writeCell, if_pos this, List.map_cons, spaceSeparated, List.append_assoc,
        List.singleton_append, List.cons_append, List.nil_append]
      rfl

theorem fputc_digit (c : Int) (hc : c = 0 ∨ c = 1) : fputc (48 + c) = digitChar c.toNat := by
  rcases hc with rfl | rfl <;> rfl

theorem writeRow_eq (game : GameOfLife) (hgw : 0 ≤ game.grid_width)
    (hbin : ∀ i j, Interior game i j → getCell game.grid i j = 0 ∨ getCell game.grid i j = 1)
    (i : Nat) (hi : 1 ≤ i ∧ (i : Int) ≤ game.grid_height) (out : List Char) :
    writeRow game out i = out ++ digitLine (rowCells game i) := by
  unfold writeRow digitLine rowCells
  rw [foldl_writeCell game i game.grid_width.toNat 1 (by push_cast; omega) out,
    List.map_map, List.append_assoc]
  congr 2
  · congr 1
    apply List.map_congr_left
    intro j hj
    rw [List.mem_range'_1] at hj
    exact fputc_digit _ (hbin i j ⟨hi, by omega, by omega⟩)

theorem foldl_writeRow (game : GameOfLife) (hgw : 0 ≤ game.grid_width)
    (hbin : ∀ i j, Interior game i j → getCell game.grid i j = 0 ∨ getCell game.grid i j = 1)
    (is : List Nat) (his : ∀ i ∈ is, 1 ≤ i ∧ (i : Int) ≤ game.grid_height) (out : List Char) :
    is.foldl (writeRow game) out = out ++ cellLines (is.map (rowCells game)) := by
  induction is generalizing out with
  | nil => simp [cellLines]
  | cons i is ih =>
    rw [List.foldl_cons, writeRow_eq game hgw hbin i (his i (List.mem_cons_self _ _)),
      ih (fun i hi => his i (List.mem_cons_of_mem _ hi))]
    simp [cellLines]

/-- The text written by `quitGame(game, true)` for a grid whose interior cells
are 0 or 1 is the output format of its dimensions and interior rows. -/
theorem quitGame_eq_outputFormat (game : GameOfLife) (hgw : 0 ≤ game.grid_width)
    (hbin : ∀ i j, Interior game i j → getCell game.grid i j = 0 ∨ getCell game.grid i j = 1) :
    quitGame game true =
      some (outputFormat game.grid_height game.grid_width (interiorRows game)) := by
  unfold quitGame outputFormat interiorRows
  rw [if_pos rfl, foldl_writeRow game hgw hbin]
  · rfl
  · intro i hi
    rw [List.mem_range'_1] at hi
    omega

/-! ## Loading the written cells -/

theorem isSpace_space : isSpace space = true := rfl

theorem isSpace_newline : isSpace newline = true := rfl

theorem noDigitAhead_space (file : List Char) : NoDigitAhead (space :: file) := by
  intro c hc
  simp only [List.head?_cons, Option.mem_def, Option.some.injEq] at hc
  rw [← hc]
  rfl

theorem noDigitAhead_newline (file : List Char) : NoDigitAhead (newline :: file) := by
  intro c hc
  simp only [List.head?_cons, Option.mem_def, Option.some.injEq] at hc
  rw [← hc]
  rfl

theorem printU_digit (c : Int) (hc : c = 0 ∨ c = 1) : printU c = [digitChar c.toNat] := by
  rcases hc with rfl | rfl <;> rfl

theorem toChar_digit (c : Int) (hc : c = 0 ∨ c = 1) : toChar c = c := by
  rcases hc with rfl | rfl <;> rfl

theorem isInt_digit (c : Int) (hc : c = 0 ∨ c = 1) : IsInt c := by
  rcases hc with rfl | rfl <;> decide

/-- A row of the border is filled with 0 and reads nothing. -/
theorem buildRow_border (undef : Nat → Nat → Int) (h w : Int) (i : Nat)
    (hi : i = 0 ∨ (i : Int) = subInt h 1) (n j : Nat) (file : List Char) :
    buildRow undef h w i n j file = (List.replicate n 0, file) := by
  induction n generalizing j with
  | zero => rfl
  | succ n ih =>
    have hb : i = 0 ∨ (i : Int) = subInt h 1 ∨ j = 0 ∨ (j : Int) = subInt w 1 := by
      rcases hi with hi | hi
      · exact Or.inl hi
      · exact Or.inr (Or.inl hi)
    unfold buildRow
    rw [readCell_border undef h w i j file hb, ih]
    rfl

/-- The cells of an interior row from column `j ≥ 1` on, read from their digits
separated by spaces. -/
theorem buildRow_digits (undef : Nat → Nat → Int) (h w : Int) (i : Nat)
    (hi : ¬ (i = 0 ∨ (i : Int) = subInt h 1)) (rest : List Char) (hrest : NoDigitAhead rest)
    (cs : List Int) (hcs : ∀ c ∈ cs, c = 0 ∨ c = 1) (j : Nat) (hj : 1 ≤ j)
    (hjw : ((j + cs.length : Nat) : Int) = subInt w 1)
    (ws : List Char) (hws : ∀ c ∈ ws, isSpace c = true) :
    ∃ ws', (∀ c ∈ ws', isSpace c = true) ∧
      buildRow undef h w i (cs.length + 1) j
        (ws ++ spaceSeparated (cs.map fun c => digitChar c.toNat) ++ rest) =
      (cs ++ [0], ws' ++ rest) := by
  induction cs generalizing j ws with
  | nil =>
    refine ⟨ws, hws, ?_⟩
    have hb : i = 0 ∨ (i : Int) = subInt h 1 ∨ j = 0 ∨ (j : Int) = subInt w 1 := by
      right; right; right
      simpa using hjw
    unfold buildRow
    rw [readCell_border undef h w i j _ hb]
    simp [buildRow, spaceSeparated, toChar]
  | cons c cs ih =>
    have hc : c = 0 ∨ c = 1 := hcs c (List.mem_cons_self _ _)
    have hcs' : ∀ c ∈ cs, c = 0 ∨ c = 1 := fun c hc => hcs c (List.mem_cons_of_mem _ hc)
    have hnb : ¬ (i = 0 ∨ (i : Int) = subInt h 1 ∨ j = 0 ∨ (j : Int) = subInt w 1) := by
      simp only [List.length_cons] at hjw
      push_cast at hjw
      rintro (h1 | h1 | h1 | h1)
      · exact hi (Or.inl h1)
      · exact hi (Or.inr h1)
      · omega
      · omega
    -- what follows the digit of `c` in the file
    obtain ⟨ws1, hws1, hfile⟩ : ∃ ws1, (∀ c ∈ ws1, isSpace c = true) ∧
        spaceSeparated ((c :: cs).map fun c => digitChar c.toNat) ++ rest =
          printU c ++ (ws1 ++ spaceSeparated (cs.map fun c => digitChar c.toNat) ++ rest) ∧
        NoDigitAhead (ws1 ++ spaceSeparated (cs.map fun c => digitChar c.toNat) ++ rest) := by
      cases cs with
      | nil =>
        refine ⟨[], by simp, ?_, ?_⟩
        · rw [printU_digit c hc]
          simp [spaceSeparated]
        · simpa [spaceSeparated] using hrest
      | cons d cs =>
        refine ⟨[space], ?_, ?_, ?_⟩
        · intro x hx
          rw [List.mem_singleton] at hx
          rw [hx]
          rfl
        · rw [printU_digit c hc]
          simp [spaceSeparated]
        · exact noDigitAhead_space _
    obtain ⟨hfile1, hfile2⟩ := hfile
    have hread : readCell undef h w i j
        (ws ++ spaceSeparated ((c :: cs).map fun c => digitChar c.toNat) ++ rest) =
        (c, ws1 ++ spaceSeparated (cs.map fun c => digitChar c.toNat) ++ rest) := by
      unfold readCell
      rw [if_neg hnb, List.append_assoc, hfile1, ← List.append_assoc,
        fscanfU_printU ws hws c (isInt_digit c hc) _ hfile2]
    obtain ⟨ws', hws', hrow⟩ := ih hcs' (j + 1) (by omega)
      (by rw [← hjw]; simp only [List.length_cons]; push_cast; ring) ws1 hws1
    refine ⟨ws', hws', ?_⟩
    rw [List.length_cons]
    unfold buildRow
    rw [hread]
    simp only []
    rw [hrow, toChar_digit c hc]
    rfl

/-- An interior row read from its line in the file. -/
theorem buildRow_digitLine (undef : Nat → Nat → Int) (h w : Int) (i : Nat)
    (hi : ¬ (i = 0 ∨ (i : Int) = subInt h 1)) (row : List Int)
    (hrow : ∀ c ∈ row, c = 0 ∨ c = 1) (hlen : ((row.length + 1 : Nat) : Int) = subInt w 1)
    (hw : w.toNat = row.length + 2)
    (ws : List Char) (hws : ∀ c ∈ ws, isSpace c = true) (file : List Char) :
    ∃ ws', (∀ c ∈ ws', isSpace c = true) ∧
      buildRow undef h w i w.toNat 0 (ws ++ digitLine row ++ file) =
        (frameRow row, ws' ++ file) := by
  obtain ⟨ws1, hws1, hbuild⟩ := buildRow_digits undef h w i hi (newline :: file)
    (noDigitAhead_newline file) row hrow 1 (le_refl 1)
    (by rw [← hlen]; push_cast; ring) ws hws
  refine ⟨ws1 ++ [newline], ?_, ?_⟩
  · intro c hc
    rw [List.mem_append, List.mem_singleton] at hc
    rcases hc with hc | hc
    · exact hws1 c hc
    · rw [hc]; rfl
  · have hb : i = 0 ∨ (i : Int) = subInt h 1 ∨ (0 : Nat) = 0 ∨
        ((0 : Nat) : Int) = subInt w 1 := Or.inr (Or.inr (Or.inl rfl))
    have hfile : ws ++ digitLine row ++ file =
        ws ++ spaceSeparated (row.map fun c => digitChar c.toNat) ++ newline :: file := by
      unfold digitLine
      simp
    rw [hw, hfile]
    unfold buildRow
    rw [readCell_border undef h w i 0 _ hb]
    simp only [Nat.zero_add]
    rw [hbuild]
    simp [frameRow, toChar]

/-- The rows from row `i ≥ 1` on, read from their lines in the file, followed by
the last row of the border. -/
theorem buildRows_cellLines (undef : Nat → Nat → Int) (h w : Int) (gw : Nat)
    (hw : w.toNat = gw + 2) (hw1 : ((gw + 1 : Nat) : Int) = subInt w 1) (file : List Char)
    (rows : List (List Int))
    (hrows : ∀ row ∈ rows, row.length = gw ∧ ∀ c ∈ row, c = 0 ∨ c = 1)
    (i : Nat) (hi : 1 ≤ i) (hih : ((i + rows.length : Nat) : Int) = subInt h 1)
    (ws : List Char) (hws : ∀ c ∈ ws, isSpace c = true) :
    ∃ ws', (∀ c ∈ ws', isSpace c = true) ∧
      buildRows undef h w (rows.length + 1) i (ws ++ cellLines rows ++ file) =
        (rows.map frameRow ++ [List.replicate w.toNat 0], ws' ++ file) := by
  induction rows generalizing i ws with
  | nil =>
    refine ⟨ws, hws, ?_⟩
    have hb : i = 0 ∨ (i : Int) = subInt h 1 := Or.inr (by simpa using hih)
    unfold buildRows
    rw [buildRow_border undef h w i hb]
    simp [buildRows, cellLines]
  | cons row rows ih =>
    obtain ⟨hlen, hbin⟩ := hrows row (List.mem_cons_self _ _)
    have hnb : ¬ (i = 0 ∨ (i : Int) = subInt h 1) := by
      simp only [List.length_cons] at hih
      push_cast at hih
      omega
    obtain ⟨ws1, hws1, hrow⟩ := buildRow_digitLine undef h w i hnb row hbin
      (by rw [hlen]; exact hw1) (by rw [hlen]; exact hw) ws hws (cellLines rows ++ file)
    obtain ⟨ws', hws', hrest⟩ := ih (fun r hr => hrows r (List.mem_cons_of_mem _ hr)) (i + 1)
      (by omega) (by rw [← hih]; simp only [List.length_cons]; push_cast; ring) ws1 hws1
    refine ⟨ws', hws', ?_⟩
    have hfile : ws ++ cellLines (row :: rows) ++ file =
        ws ++ digitLine row ++ (cellLines rows ++ file) := by
      simp [cellLines]
    rw [List.length_cons, hfile]
    unfold buildRows
    rw [hrow]
    simp only []
    rw [← List.append_assoc, hrest]
    rfl

theorem length_rowCells (game : GameOfLife) (i : Nat) :
    (rowCells game i).length = game.grid_width.toNat := by
  simp [rowCells]

theorem length_interiorRows (game : GameOfLife) :
    (interiorRows game).length = game.grid_height.toNat := by
  simp [interiorRows]

theorem interiorRows_eq (game : GameOfLife) :
    interiorRows game = (List.range' 1 game.grid_height.toNat).map (rowCells game) := rfl

/-- The grid that the loops of `loadGame` build from the lines written for the
interior of `game`: a row of zeros, the interior rows between border cells, a
row of zeros. -/
theorem loadCells_cellLines (undef : Nat → Nat → Int) (game : GameOfLife)
    (hwf : WellFormed game)
    (hbin : ∀ i j, Interior game i j → getCell game.grid i j = 0 ∨ getCell game.grid i j = 1)
    (ws : List Char) (hws : ∀ c ∈ ws, isSpace c = true) (file : List Char) :
    ∃ ws', (∀ c ∈ ws', isSpace c = true) ∧
      loadCells undef (addInt game.grid_height 2) (addInt game.grid_width 2)
        (allocGrid (addInt game.grid_height 2) (addInt game.grid_width 2),
          ws ++ cellLines (interiorRows game) ++ file) =
        (List.replicate (game.grid_width + 2).toNat 0 ::
          ((interiorRows game).map frameRow ++ [List.replicate (game.grid_width + 2).toNat 0]),
         ws' ++ file) := by
  obtain ⟨h0, hh, w0, hw, -, -⟩ := hwf
  have eh : addInt game.grid_height 2 = game.grid_height + 2 :=
    wrapInt_eq _ (by unfold IsInt INT_MIN; unfold INT_MAX at *; omega)
  have ew : addInt game.grid_width 2 = game.grid_width + 2 :=
    wrapInt_eq _ (by unfold IsInt INT_MIN; unfold INT_MAX at *; omega)
  have eh1 : subInt (game.grid_height + 2) 1 = game.grid_height + 1 := by
    unfold subInt
    rw [wrapInt_eq _ (by unfold IsInt INT_MIN; unfold INT_MAX at *; omega)]
    omega
  have ew1 : subInt (game.grid_width + 2) 1 = game.grid_width + 1 := by
    unfold subInt
    rw [wrapInt_eq _ (by unfold IsInt INT_MIN; unfold INT_MAX at *; omega)]
    omega
  rw [loadCells_eq_buildRows, eh, ew]
  have hrows : ∀ row ∈ interiorRows game,
      row.length = game.grid_width.toNat ∧ ∀ c ∈ row, c = 0 ∨ c = 1 := by
    intro row hrow
    rw [interiorRows_eq, List.mem_map] at hrow
    obtain ⟨i, hi, rfl⟩ := hrow
    rw [List.mem_range'_1] at hi
    refine ⟨length_rowCells game i, ?_⟩
    intro c hc
    unfold rowCells at hc
    rw [List.mem_map] at hc
    obtain ⟨j, hj, rfl⟩ := hc
    rw [List.mem_range'_1] at hj
    exact hbin i j ⟨⟨by omega, by omega⟩, by omega, by omega⟩
  obtain ⟨ws', hws', hbuild⟩ := buildRows_cellLines undef (game.grid_height + 2)
    (game.grid_width + 2) game.grid_width.toNat (by omega) (by rw [ew1]; push_cast; omega)
    file (interiorRows game) hrows 1 (le_refl 1)
    (by rw [eh1, length_interiorRows]; push_cast; omega) ws hws
  refine ⟨ws', hws', ?_⟩
  have hn : (game.grid_height + 2).toNat = (interiorRows game).length + 1 + 1 := by
    rw [length_interiorRows]; omega
  rw [hn]
  unfold buildRows
  rw [buildRow_border undef _ _ 0 (Or.inl rfl)]
  simp only [Nat.zero_add]
  rw [hbuild]

/-! ## The round trip -/

theorem fscanfU3_header (a b c : Int) (ha : IsInt a) (hb : IsInt b) (hc : IsInt c)
    (file : List Char) (hfile : NoDigitAhead file) :
    fscanfU3 (printU a ++ [space] ++ printU b ++ [space] ++ printU c ++ file) =
      (some (a, b, c), file) := by
  have hsp : ∀ x ∈ [space], isSpace x = true := by
    intro x hx
    rw [List.mem_singleton] at hx
    rw [hx]; rfl
  have h1 : fscanfU (printU a ++ [space] ++ printU b ++ [space] ++ printU c ++ file) =
      (some a, [space] ++ printU b ++ ([space] ++ printU c ++ file)) := by
    have := fscanfU_printU [] (by simp) a ha ([space] ++ printU b ++ ([space] ++ printU c ++ file))
      (noDigitAhead_space _)
    simpa using this
  have h2 : fscanfU ([space] ++ printU b ++ ([space] ++ printU c ++ file)) =
      (some b, [space] ++ printU c ++ file) :=
    fscanfU_printU [space] hsp b hb _ (noDigitAhead_space _)
  have h3 : fscanfU ([space] ++ printU c ++ file) = (some c, file) :=
    fscanfU_printU [space] hsp c hc file hfile
  unfold fscanfU3
  rw [h1]
  simp only []
  rw [h2]
  simp only []
  rw [h3]

/-- The record returned by `loadGame` when every read succeeds. -/
theorem loadGame_of_reads (undef : Nat → Nat → Int) (f0 f1 f3 f4 f5 f6 f7 : List Char)
    (gh gw ms ww wh cs : Int) (background line live dead : SDL_Color)
    (h1 : fscanfU3 f0 = (some (gh, gw, ms), f1))
    (h3 : fscanfU3 (loadCells undef (addInt gh 2) (addInt gw 2)
      (allocGrid (addInt gh 2) (addInt gw 2), f1)).2 = (some (ww, wh, cs), f3))
    (h4 : readColor f3 = (some background, f4)) (h5 : readColor f4 = (some line, f5))
    (h6 : readColor f5 = (some live, f6)) (h7 : readColor f6 = (some dead, f7)) :
    loadGame undef (some f0) = some
      { grid_width := gw
        grid_height := gh
        max_evolution_steps := ms
        grid := (loadCells undef (addInt gh 2) (addInt gw 2)
          (allocGrid (addInt gh 2) (addInt gw 2), f1)).1
        window_width := adjustWindow ww gw cs
        window_height := adjustWindow wh gh cs
        grid_cell_size := cs
        evolution_step := 0
        evolution_active := false
        grid_background_color := background
        grid_line_color := line
        grid_live_cell_color := live
        grid_dead_cell_color := dead } := by
  unfold loadGame
  simp only [h1, h3, h4, h5, h6, h7]

theorem windowAndColoursComplete_reads (file : List Char)
    (h : windowAndColoursComplete file = true) :
    ∃ ww wh cs f3 background f4 line f5 live f6 dead f7,
      fscanfU3 file = (some (ww, wh, cs), f3) ∧
      readColor f3 = (some background, f4) ∧ readColor f4 = (some line, f5) ∧
      readColor f5 = (some live, f6) ∧ readColor f6 = (some dead, f7) := by
  unfold windowAndColoursComplete at h
  split at h
  · cases h
  · rename_i v f3 h3
    split at h
    · cases h
    · rename_i background f4 h4
      split at h
      · cases h
      · rename_i line f5 h5
        split at h
        · cases h
        · rename_i live f6 h6
          cases h7 : readColor f6 with
          | mk dead f7 =>
            rw [h7] at h
            cases dead with
            | none => cases h
            | some dead =>
              obtain ⟨ww, wh, cs⟩ := v
              exact ⟨ww, wh, cs, f3, background, f4, line, f5, live, f6, dead, f7,
                h3, h4, h5, h6, h7⟩

/-- The interior cells of the framed interior rows of `game` are the interior
cells of `game`. -/
theorem cellAt?_framed (game : GameOfLife) (top bottom : List Int) (i j : Nat)
    (hij : Interior game i j) :
    cellAt? (top :: ((interiorRows game).map frameRow ++ [bottom])) i j =
      some (getCell game.grid i j) := by
  obtain ⟨⟨hi1, hi2⟩, hj1, hj2⟩ := hij
  obtain ⟨i, rfl⟩ : ∃ k, i = k + 1 := ⟨i - 1, by omega⟩
  obtain ⟨j, rfl⟩ : ∃ k, j = k + 1 := ⟨j - 1, by omega⟩
  have hi : i < game.grid_height.toNat := by push_cast at hi2; omega
  have hj : j < game.grid_width.toNat := by push_cast at hj2; omega
  have hrow : (top :: ((interiorRows game).map frameRow ++ [bottom]))[i + 1]? =
      some (frameRow (rowCells game (i + 1))) := by
    rw [List.getElem?_cons_succ, List.getElem?_append_left
      (by rw [List.length_map, length_interiorRows]; exact hi),
      List.getElem?_map, interiorRows_eq, List.getElem?_map,
      List.getElem?_range' 1 1 hi]
    simp [Nat.add_comm]
  have hcell : (frameRow (rowCells game (i + 1)))[j + 1]? =
      some (getCell game.grid (i + 1) (j + 1)) := by
    unfold frameRow
    rw [List.cons_append, List.getElem?_cons_succ, List.getElem?_append_left
      (by rw [length_rowCells]; exact hj)]
    unfold rowCells
    rw [List.getElem?_map, List.getElem?_range' 1 1 hj]
    simp [Nat.add_comm]
  unfold cellAt?
  rw [hrow]
  exact hcell

theorem interiorBinary_cell (game : GameOfLife) (hbin : InteriorBinary game) (i j : Nat)
    (hij : Interior game i j) : getCell game.grid i j = 0 ∨ getCell game.grid i j = 1 := by
  obtain ⟨⟨hi1, hi2⟩, hj1, hj2⟩ := hij
  apply hbin (rowCells game i)
  · rw [interiorRows_eq, List.mem_map]
    exact ⟨i, by rw [List.mem_range'_1]; omega, rfl⟩
  · unfold rowCells
    rw [List.mem_map]
    exact ⟨j, by rw [List.mem_range'_1]; omega, rfl⟩

/-- C4. For a record whose grid is allocated with its dimensions `h`, `w` and
whose interior cells are 0 or 1: the text written by `quitGame(game, true)` is
the line `h w` followed by `h` lines of `w` digits separated by spaces; and
`loadGame` on a configuration whose header is `h w m`, whose cell values are
these lines, and whose remaining text yields the window line and the four
colours, returns a record with the same dimensions, step limit `m`, the same
interior cells and a border of zeros. -/
theorem write_then_load (undef : Nat → Nat → Int) (game : GameOfLife) (hwf : WellFormed game)
    (hbinary : InteriorBinary game)
    (m : Int) (hm : IsInt m) (rest : List Char) (hrest : windowAndColoursComplete rest = true) :
    quitGame game true =
      some (outputFormat game.grid_height game.grid_width (interiorRows game)) ∧
    ∃ loaded,
      loadGame undef (some (configFormat game.grid_height game.grid_width m
        (interiorRows game) rest)) = some loaded ∧
      loaded.grid_height = game.grid_height ∧ loaded.grid_width = game.grid_width ∧
      loaded.max_evolution_steps = m ∧
      (∀ i j, Interior game i j → cellAt? loaded.grid i j = cellAt? game.grid i j) ∧
      (∀ i j, Border game i j → cellAt? loaded.grid i j = some 0) := by
  have hwf' := hwf
  obtain ⟨h0, hh, w0, hw, -, -⟩ := hwf'
  have hbin := interiorBinary_cell game hbinary
  refine ⟨quitGame_eq_outputFormat game w0 hbin, ?_⟩
  have hgh : IsInt game.grid_height := by
    unfold IsInt INT_MIN; unfold INT_MAX at *; omega
  have hgw : IsInt game.grid_width := by
    unfold IsInt INT_MIN; unfold INT_MAX at *; omega
  have hnl : ∀ x ∈ [newline], isSpace x = true := by
    intro x hx
    rw [List.mem_singleton] at hx
    rw [hx]; rfl
  have hconfig : configFormat game.grid_height game.grid_width m (interiorRows game) rest =
      printU game.grid_height ++ [space] ++ printU game.grid_width ++ [space] ++ printU m ++
        ([newline] ++ cellLines (interiorRows game) ++ rest) := by
    unfold configFormat
    simp
  have h1 := fscanfU3_header game.grid_height game.grid_width m hgh hgw hm
    ([newline] ++ cellLines (interiorRows game) ++ rest) (noDigitAhead_newline _)
  obtain ⟨ws', hws', hcells⟩ := loadCells_cellLines undef game hwf hbin [newline] hnl rest
  obtain ⟨ww, wh, cs, f3, background, f4, line, f5, live, f6, dead, f7, r3, r4, r5, r6, r7⟩ :=
    windowAndColoursComplete_reads rest hrest
  have h3 : fscanfU3 (loadCells undef (addInt game.grid_height 2) (addInt game.grid_width 2)
      (allocGrid (addInt game.grid_height 2) (addInt game.grid_width 2),
        [newline] ++ cellLines (interiorRows game) ++ rest)).2 = (some (ww, wh, cs), f3) := by
    rw [hcells]
    simp only []
    rw [fscanfU3_append ws' rest hws', r3]
  have hload := loadGame_of_reads undef _ _ f3 f4 f5 f6 f7 _ _ _ ww wh cs background line live dead
    h1 h3 r4 r5 r6 r7
  rw [← hconfig] at hload
  refine ⟨_, hload, rfl, rfl, rfl, ?_, ?_⟩
  · intro i j hij
    simp only []
    rw [hcells]
    simp only []
    rw [cellAt?_framed game _ _ i j hij]
    obtain ⟨⟨_, hi2⟩, _, hj2⟩ := hij
    rw [cellAt?_of_wellFormed hwf i j (by omega) (by omega)]
  · intro i j hb
    obtain ⟨⟨hi, hj⟩, hb⟩ := hb
    obtain ⟨-, -, hzero⟩ := loadCells_grid undef (addInt game.grid_height 2)
      (addInt game.grid_width 2) ([newline] ++ cellLines (interiorRows game) ++ rest)
    have eh : addInt game.grid_height 2 = game.grid_height + 2 :=
      wrapInt_eq _ (by unfold IsInt INT_MIN; unfold INT_MAX at *; omega)
    have ew : addInt game.grid_width 2 = game.grid_width + 2 :=
      wrapInt_eq _ (by unfold IsInt INT_MIN; unfold INT_MAX at *; omega)
    have eh1 : subInt (game.grid_height + 2) 1 = game.grid_height + 1 := by
      unfold subInt
      rw [wrapInt_eq _ (by unfold IsInt INT_MIN; unfold INT_MAX at *; omega)]
      omega
    have ew1 : subInt (game.grid_width + 2) 1 = game.grid_width + 1 := by
      unfold subInt
      rw [wrapInt_eq _ (by unfold IsInt INT_MIN; unfold INT_MAX at *; omega)]
      omega
    simp only []
    apply hzero i j (by rw [eh]; omega) (by rw [ew]; omega)
    rw [eh, ew, eh1, ew1]
    exact hb

theorem write_then_load_witness :
    quitGame sampleLoaded true =
      some (outputFormat sampleLoaded.grid_height sampleLoaded.grid_width
        (interiorRows sampleLoaded)) ∧
    ∃ loaded,
      loadGame zeroUndef (some (configFormat sampleLoaded.grid_height sampleLoaded.grid_width 1
        (interiorRows sampleLoaded) sampleRest)) = some loaded ∧
      loaded.grid_height = sampleLoaded.grid_height ∧
      loaded.grid_width = sampleLoaded.grid_width ∧
      loaded.max_evolution_steps = 1 ∧
      (∀ i j, Interior sampleLoaded i j →
        cellAt? loaded.grid i j = cellAt? sampleLoaded.grid i j) ∧
      (∀ i j, Border sampleLoaded i j → cellAt? loaded.grid i j = some 0) :=
  write_then_load zeroUndef sampleLoaded (by decide) (by decide) 1 (by decide) sampleRest
    (by decide!)

/-! ## Short reads that `loadGame` does detect -/

theorem skipSpace_skipSpace (file : List Char) : skipSpace (skipSpace file) = skipSpace file := by
  induction file with
  | nil => rfl
  | cons c cs ih =>
    by_cases h : isSpace c = true
    · rw [skipSpace, if_pos h]
      exact ih
    · rw [skipSpace, if_neg h, skipSpace, if_neg h]

theorem fscanfU_dead (file : List Char) (h : Dead file) :
    fscanfU file = (none, skipSpace file) := by
  unfold Dead at h
  unfold fscanfU
  cases hs : skipSpace file with
  | nil => rfl
  | cons c cs =>
    rw [hs] at h
    obtain ⟨h1, h2, h3⟩ := h
    have hsign : ¬ (c.toNat = 45 ∨ c.toNat = 43) := by
      rintro (h | h)
      · exact h2 h
      · exact h3 h
    simp only [if_neg hsign]
    rw [takeDigits, if_neg (by rw [h1]; simp)]

theorem dead_skipSpace (file : List Char) (h : Dead file) : Dead (skipSpace file) := by
  unfold Dead at *
  rw [skipSpace_skipSpace]
  exact h

theorem endsWithin_of_dead (n : Nat) (file : List Char) (h : Dead file) : EndsWithin n file := by
  cases n with
  | zero => exact h
  | succ n => exact Or.inl h

theorem endsWithin_succ (n : Nat) (file : List Char) (h : EndsWithin n file) :
    EndsWithin (n + 1) file := by
  induction n generalizing file with
  | zero => exact Or.inl h
  | succ n ih =>
    rcases h with h | ⟨v, rest, h1, h2⟩
    · exact Or.inl h
    · exact Or.inr ⟨v, rest, h1, ih rest h2⟩

theorem endsWithin_mono {m n : Nat} (hmn : m ≤ n) (file : List Char) (h : EndsWithin m file) :
    EndsWithin n file := by
  induction hmn with
  | refl => exact h
  | step _ ih => exact endsWithin_succ _ _ ih

/-- One conversion at a position from which at most `n` numbers can be read:
afterwards at most `n - 1` can be. -/
theorem endsWithin_fscanfU (n : Nat) (file : List Char) (h : EndsWithin n file) :
    EndsWithin (n - 1) (fscanfU file).2 ∧ ((fscanfU file).1.isSome = true → 1 ≤ n) := by
  have hdead : Dead file → EndsWithin (n - 1) (fscanfU file).2 ∧
      ((fscanfU file).1.isSome = true → 1 ≤ n) := by
    intro hd
    rw [fscanfU_dead file hd]
    exact ⟨endsWithin_of_dead _ _ (dead_skipSpace file hd), by intro h; cases h⟩
  cases n with
  | zero => exact hdead h
  | succ n =>
    rcases h with h | ⟨v, rest, h1, h2⟩
    · exact hdead h
    · rw [h1]
      exact ⟨h2, fun _ => by omega⟩

theorem endsWithin_fscanfU3 (n : Nat) (file : List Char) (h : EndsWithin n file)
    (v : Int × Int × Int) (rest : List Char) (hread : fscanfU3 file = (some v, rest)) :
    3 ≤ n ∧ EndsWithin (n - 3) rest := by
  unfold fscanfU3 at hread
  obtain ⟨e1, p1⟩ := endsWithin_fscanfU n file h
  split at hread
  · cases hread
  · rename_i a f1 h1
    rw [h1] at e1 p1
    obtain ⟨e2, p2⟩ := endsWithin_fscanfU (n - 1) f1 e1
    split at hread
    · cases hread
    · rename_i b f2 h2
      rw [h2] at e2 p2
      obtain ⟨e3, p3⟩ := endsWithin_fscanfU (n - 1 - 1) f2 e2
      split at hread
      · cases hread
      · rename_i c f3 h3
        rw [h3] at e3 p3
        simp only [Prod.mk.injEq] at hread
        have q1 := p1 rfl
        have q2 := p2 rfl
        have q3 := p3 rfl
        refine ⟨by omega, ?_⟩
        rw [← hread.2]
        have : n - 3 = n - 1 - 1 - 1 := by omega
        rw [this]
        exact e3

theorem endsWithin_readColor (n : Nat) (file : List Char) (h : EndsWithin n file)
    (color : SDL_Color) (rest : List Char) (hread : readColor file = (some color, rest)) :
    3 ≤ n ∧ EndsWithin (n - 3) rest := by
  unfold readColor at hread
  split at hread
  · cases hread
  · rename_i r g b f1 h1
    simp only [Prod.mk.injEq] at hread
    rw [← hread.2]
    exact endsWithin_fscanfU3 n file h _ f1 h1

theorem endsWithin_readCell (undef : Nat → Nat → Int) (h w : Int) (i j : Nat) (n : Nat)
    (file : List Char) (hn : EndsWithin n file) :
    ((i = 0 ∨ (i : Int) = subInt h 1 ∨ j = 0 ∨ (j : Int) = subInt w 1) →
      EndsWithin n (readCell undef h w i j file).2) ∧
    (¬ (i = 0 ∨ (i : Int) = subInt h 1 ∨ j = 0 ∨ (j : Int) = subInt w 1) →
      EndsWithin (n - 1) (readCell undef h w i j file).2) := by
  unfold readCell
  split_ifs with hb
  · exact ⟨fun _ => hn, fun hb' => absurd hb hb'⟩
  · obtain ⟨e, _⟩ := endsWithin_fscanfU n file hn
    refine ⟨fun hb' => absurd hb' hb, fun _ => ?_⟩
    cases hs : fscanfU file with
    | mk r f1 =>
      rw [hs] at e
      cases r <;> exact e

/-- The cells of an interior row from column `j ≥ 1` to the last column: one
conversion for each cell before the border. -/
theorem endsWithin_buildRow (undef : Nat → Nat → Int) (h w : Int) (i : Nat)
    (hi : ¬ (i = 0 ∨ (i : Int) = subInt h 1)) (k : Nat) (j : Nat) (hj : 1 ≤ j)
    (hjw : ((j + k : Nat) : Int) = subInt w 1) (n : Nat) (file : List Char)
    (hn : EndsWithin n file) :
    EndsWithin (n - k) (buildRow undef h w i (k + 1) j file).2 := by
  induction k generalizing j n file with
  | zero =>
    have hb : i = 0 ∨ (i : Int) = subInt h 1 ∨ j = 0 ∨ (j : Int) = subInt w 1 :=
      Or.inr (Or.inr (Or.inr (by simpa using hjw)))
    unfold buildRow
    simp only [buildRow]
    exact (endsWithin_readCell undef h w i j n file hn).1 hb
  | succ k ih =>
    have hnb : ¬ (i = 0 ∨ (i : Int) = subInt h 1 ∨ j = 0 ∨ (j : Int) = subInt w 1) := by
      push_cast at hjw
      rintro (h1 | h1 | h1 | h1)
      · exact hi (Or.inl h1)
      · exact hi (Or.inr h1)
      · omega
      · omega
    have h1 := (endsWithin_readCell undef h w i j n file hn).2 hnb
    have h2 := ih (j + 1) (by omega) (by rw [← hjw]; push_cast; ring) (n - 1) _ h1
    unfold buildRow
    simp only []
    have e : n - (k + 1) = n - 1 - k := by omega
    rw [e]
    exact h2

/-- A whole interior row of `w ≥ 2` cells: `w - 2` conversions. -/
theorem endsWithin_buildRow_interior (undef : Nat → Nat → Int) (h w : Int) (i : Nat)
    (hi : ¬ (i = 0 ∨ (i : Int) = subInt h 1)) (hw : 2 ≤ w) (hw' : w ≤ INT_MAX)
    (n : Nat) (file : List Char) (hn : EndsWithin n file) :
    EndsWithin (n - (w.toNat - 2)) (buildRow undef h w i w.toNat 0 file).2 := by
  have hb : i = 0 ∨ (i : Int) = subInt h 1 ∨ (0 : Nat) = 0 ∨ ((0 : Nat) : Int) = subInt w 1 :=
    Or.inr (Or.inr (Or.inl rfl))
  have e1 : subInt w 1 = w - 1 :=
    wrapInt_eq _ (by unfold IsInt INT_MIN; unfold INT_MAX at *; omega)
  have e : w.toNat = (w.toNat - 2) + 1 + 1 := by omega
  have h1 := endsWithin_buildRow undef h w i hi (w.toNat - 2) 1 (le_refl 1)
    (by rw [e1]; push_cast; omega) n file hn
  rw [e]
  unfold buildRow
  rw [readCell_border undef h w i 0 file hb]
  simp only [Nat.zero_add]
  have e' : w.toNat - 2 + 1 + 1 - 2 = w.toNat - 2 := by omega
  rw [e']
  exact h1

/-- The rows from row `i ≥ 1` to the last row: `w - 2` conversions for each row
before the border. -/
theorem endsWithin_buildRows (undef : Nat → Nat → Int) (h w : Int) (hw : 2 ≤ w)
    (hw' : w ≤ INT_MAX) (k : Nat) (i : Nat) (hi : 1 ≤ i)
    (hih : ((i + k : Nat) : Int) = subInt h 1) (n : Nat) (file : List Char)
    (hn : EndsWithin n file) :
    EndsWithin (n - k * (w.toNat - 2)) (buildRows undef h w (k + 1) i file).2 := by
  induction k generalizing i n file with
  | zero =>
    have hb : i = 0 ∨ (i : Int) = subInt h 1 := Or.inr (by simpa using hih)
    unfold buildRows
    simp only [buildRows]
    rw [buildRow_border undef h w i hb]
    simpa using hn
  | succ k ih =>
    have hnb : ¬ (i = 0 ∨ (i : Int) = subInt h 1) := by
      push_cast at hih
      omega
    have h1 := endsWithin_buildRow_interior undef h w i hnb hw hw' n file hn
    have h2 := ih (i + 1) (by omega) (by rw [← hih]; push_cast; ring) _ _ h1
    unfold buildRows
    simp only []
    have e : n - (k + 1) * (w.toNat - 2) = n - (w.toNat - 2) - k * (w.toNat - 2) := by
      rw [Nat.succ_mul]
      omega
    rw [e]
    exact h2

/-- The loops of lines 83-95 on `h ≥ 2` rows of `w ≥ 2` cells make `cellReads h w`
conversions. -/
theorem endsWithin_loadCells (undef : Nat → Nat → Int) (h w : Int) (hh : 2 ≤ h)
    (hh' : h ≤ INT_MAX) (hw : 2 ≤ w) (hw' : w ≤ INT_MAX) (n : Nat) (file : List Char)
    (hn : EndsWithin n file) :
    EndsWithin (n - cellReads h w) (loadCells undef h w (allocGrid h w, file)).2 := by
  rw [loadCells_eq_buildRows]
  have e1 : subInt h 1 = h - 1 :=
    wrapInt_eq _ (by unfold IsInt INT_MIN; unfold INT_MAX at *; omega)
  have e : h.toNat = (h.toNat - 2) + 1 + 1 := by omega
  have h1 := endsWithin_buildRows undef h w hw hw' (h.toNat - 2) 1 (le_refl 1)
    (by rw [e1]; push_cast; omega) n file hn
  rw [e]
  unfold buildRows
  rw [buildRow_border undef h w 0 (Or.inl rfl)]
  simp only [Nat.zero_add]
  unfold cellReads
  exact h1

/-- A short read that `loadGame` detects. When the header `gh gw ms` is read, with
dimensions that are not negative and fit the allocation, and at most
`gh * gw + 14` numbers can be read after it before the file ends or holds a
character that no conversion passes (neither digit nor sign), so that one of the
`gh * gw + 15` remaining fields is missing, `loadGame` returns `NULL`. A header
that is not read gives `NULL` as well. -/
theorem loadGame_short_read (undef : Nat → Nat → Int) (f0 : List Char) :
    ((fscanfU3 f0).1 = none → loadGame undef (some f0) = none) ∧
    ∀ gh gw ms f1, fscanfU3 f0 = (some (gh, gw, ms), f1) →
      0 ≤ gh → 0 ≤ gw → gh + 2 ≤ INT_MAX → gw + 2 ≤ INT_MAX →
      EndsWithin (gh.toNat * gw.toNat + 14) f1 →
      loadGame undef (some f0) = none := by
  constructor
  · intro h
    cases hs : fscanfU3 f0 with
    | mk r f1 =>
      rw [hs] at h
      simp only [] at h
      subst h
      unfold loadGame
      simp only [hs]
  · intro gh gw ms f1 hread hgh hgw hh hw hshort
    cases hload : loadGame undef (some f0) with
    | none => rfl
    | some game =>
      exfalso
      obtain ⟨gh', gw', ms', f1', ww, wh, cs, f3, c1, f4, c2, f5, c3, f6, c4, f7,
        r1, r3, r4, r5, r6, r7, -⟩ := loadGame_eq_some hload
      rw [hread] at r1
      simp only [Prod.mk.injEq, Option.some.injEq] at r1
      obtain ⟨⟨rfl, rfl, rfl⟩, rfl⟩ := r1
      have eh : addInt gh 2 = gh + 2 :=
        wrapInt_eq _ (by unfold IsInt INT_MIN; unfold INT_MAX at *; omega)
      have ew : addInt gw 2 = gw + 2 :=
        wrapInt_eq _ (by unfold IsInt INT_MIN; unfold INT_MAX at *; omega)
      have hcells := endsWithin_loadCells undef (addInt gh 2) (addInt gw 2)
        (by rw [eh]; omega) (by rw [eh]; exact hh) (by rw [ew]; omega) (by rw [ew]; exact hw)
        _ f1 hshort
      have hcount : gh.toNat * gw.toNat + 14 - cellReads (addInt gh 2) (addInt gw 2) = 14 := by
        unfold cellReads
        rw [eh, ew]
        have a1 : (gh + 2).toNat - 2 = gh.toNat := by omega
        have a2 : (gw + 2).toNat - 2 = gw.toNat := by omega
        rw [a1, a2]
        omega
      rw [hcount] at hcells
      obtain ⟨-, k3⟩ := endsWithin_fscanfU3 14 _ hcells _ _ r3
      obtain ⟨-, k4⟩ := endsWithin_readColor _ _ k3 _ _ r4
      obtain ⟨-, k5⟩ := endsWithin_readColor _ _ k4 _ _ r5
      obtain ⟨-, k6⟩ := endsWithin_readColor _ _ k5 _ _ r6
      obtain ⟨k7, -⟩ := endsWithin_readColor _ _ k6 _ _ r7
      omega

/-- An instance of `loadGame_short_read`: a file that ends inside the cell values
is not loaded. -/
theorem loadGame_truncated : loadGame zeroUndef (some truncatedConfig) = none :=
  (loadGame_short_read zeroUndef truncatedConfig).2 3 3 1 "\n0 0 0\n0 1".toList
    (by decide) (by decide) (by decide) (by decide) (by decide) (by decide)

/-! ## A short read in the cell values -/

/-- C5, at a failing input. `shortConfig` holds a lone minus sign where the value
of its only cell is expected, so the numbers of the file end before all fields
are read. The call of line 90 converts nothing, consumes the sign and its result
is not looked at; the window line and the colours are then read as usual and
`loadGame` returns a record, whose cell `(1, 1)` holds whatever the uninitialised
local `cell` held. The same sign in the window line makes `loadGame` return
`NULL`, as the test of line 97 sees the short read. -/
theorem short_cell_region_is_loaded :
    (fscanfU "\n-\n300 300 10".toList = (none, "\n300 300 10".toList)) ∧
    (∀ undef, (loadGame undef (some shortConfig)).isSome = true) ∧
    ((loadGame (fun _ _ => 5) (some shortConfig)).map (fun game => game.grid)
      = some [[0, 0, 0], [0, 5, 0], [0, 0, 0]]) ∧
    ((loadGame (fun _ _ => 7) (some shortConfig)).map (fun game => game.grid)
      = some [[0, 0, 0], [0, 7, 0], [0, 0, 0]]) ∧
    (∀ undef, loadGame undef (some shortWindowConfig) = none) := by
  refine ⟨by decide, fun undef => rfl, by decide!, by decide!, fun undef => rfl⟩

/-- A record returned by `loadGame` whose dimensions are not negative and fit the
allocation has its grid allocated with these dimensions. -/
theorem wellFormed_loadGame (undef : Nat → Nat → Int) (f0 : List Char) (game : GameOfLife)
    (hload : loadGame undef (some f0) = some game)
    (hgh : 0 ≤ game.grid_height) (hh : game.grid_height + 2 ≤ INT_MAX)
    (hgw : 0 ≤ game.grid_width) (hw : game.grid_width + 2 ≤ INT_MAX) :
    WellFormed game := by
  obtain ⟨gh, gw, ms, f1, ww, wh, cs, f3, c1, f4, c2, f5, c3, f6, c4, f7, -, -, -, -, -, -, rfl⟩ :=
    loadGame_eq_some hload
  obtain ⟨hrows, hcols, -⟩ := loadCells_grid undef (addInt gh 2) (addInt gw 2) f1
  simp only [] at hgh hh hgw hw
  have eh : addInt gh 2 = gh + 2 :=
    wrapInt_eq _ (by unfold IsInt INT_MIN; unfold INT_MAX at *; omega)
  have ew : addInt gw 2 = gw + 2 :=
    wrapInt_eq _ (by unfold IsInt INT_MIN; unfold INT_MAX at *; omega)
  refine ⟨hgh, hh, hgw, hw, ?_, ?_⟩
  · show ((loadCells undef (addInt gh 2) (addInt gw 2) _).1.length : Int) = gh + 2
    rw [hrows, eh]
    omega
  · intro row hrow
    show (row.length : Int) = gw + 2
    rw [hcols row hrow, ew]
    omega

end Life
